import Mathlib

/-!
# The V4L encoder session of `selfdrive/loggerd/v4l_encoder.cc`

A shallow embedding of the encoder object and of its three threads of control:

* the caller (`encoder_open`, `encode_frame`, `encoder_close`),
* the dequeue worker (`dequeue_handler`),
* the writer worker (`write_handler`).

The three blocking queues (`free_buf_in`, `extras`, `to_write`) are lists, front of the
list = front of the queue.  A concurrent execution is a list of atomic actions (a
linearisation); an action of a thread that would have to wait at that point is reported
as `Outcome.waits`, an assertion failure as `Outcome.fatal` with the state at the abort.

The actions are: `encoder_open`; one `encode_frame` call (it can wait only at its first
queue operation, and it pushes `extras` before it queues the buffer); one iteration of
the loop of `dequeue_handler` on what `poll` reported (placed at its `extras.pop()`);
one iteration of the loop of `write_handler`; and `encoder_close` cut at its blocking
points (each `free_buf_in.pop()`, the two joins), since the dequeue loop has to run
while `encoder_close` waits.

Unsigned machine integers wrap modulo `2^w`; C `int`/`long` are two's complement
(`toInt32`, `toInt64`; `long` is 64 bits wide on the target).  Device calls
(`checked_ioctl`) are taken to succeed.  The class declaration is not among the sources:
`BUF_IN_COUNT`, `BUF_OUT_COUNT` and the default member initialisers are arguments.
-/

namespace V4L

/-! ## Constants and machine integers -/

/-- Line 15 of the source. -/
def V4L2_QCOM_BUF_FLAG_CODECCONFIG : Nat := 0x00020000

/-- Line 16 of the source. -/
def V4L2_QCOM_BUF_FLAG_EOS : Nat := 0x02000000

/-- Value of the kernel header `linux/videodev2.h`. -/
def V4L2_BUF_FLAG_KEYFRAME : Nat := 0x00000008

/-- Truth value of the C expression `flags & mask`. -/
def hasFlag (flags mask : Nat) : Bool := (flags &&& mask) != 0

/-- Conversion to a 32-bit two's complement `int`. -/
def toInt32 (x : Int) : Int := (x + 2147483648) % 4294967296 - 2147483648

/-- Conversion to a 64-bit two's complement `long` / `int64_t`. -/
def toInt64 (x : Int) : Int :=
  (x + 9223372036854775808) % 18446744073709551616 - 9223372036854775808

/-- Conversion to `uint64_t`. -/
def toUInt64 (x : Int) : Nat := (x % 18446744073709551616).toNat

/-! ## Data -/

abbrev Bytes := List Nat

/-- Per-frame metadata handed in by the caller (`uint32_t`, `uint64_t`, `uint64_t`). -/
structure VisionIpcBufExtra where
  frame_id : Nat
  timestamp_sof : Nat
  timestamp_eof : Nat
deriving DecidableEq

/-- The `struct timeval` of the device interface; both fields are `long`. -/
structure timeval where
  tv_sec : Int
  tv_usec : Int
deriving DecidableEq

/-- The two values of the `type` field set at line 163. -/
inductive EncodeType where
  | FULL_H_E_V_C
  | QCAMERA_H264
deriving DecidableEq

/-- The encode-data message built at lines 154-170: the `EncodeIndex` fields, the payload
and the header (an unset header reads back empty).  Which member of the event union is
used is a function of the immutable `type`/`h265`, the same in both handlers. -/
structure EncodeData where
  frameId : Nat
  timestampSof : Nat
  timestampEof : Nat
  type : EncodeType
  encodeId : Nat
  segmentNum : Int
  segmentId : Nat
  flags : Nat
  len : Nat
  data : Bytes
  header : Bytes
deriving DecidableEq

/-- One call `writer.write(data, len, timestamp, codecconfig, keyframe)`. -/
structure WriteCall where
  data : Bytes
  len : Nat
  timestamp : Nat
  codecconfig : Bool
  keyframe : Bool
deriving DecidableEq

/-- What `dequeue_buffer` reports for the capture queue, with the contents of
`buf_out[index]` after the sync. -/
structure Dequeued where
  index : Nat
  bytesused : Nat
  flags : Nat
  timestamp : timeval
  buf : Bytes
deriving DecidableEq

/-- One return of `poll` in the dequeue loop: `pollin` is the capture buffer dequeued
when `POLLIN` is set, `pollout` the released input index when `POLLOUT` is set; both
absent is a timeout. -/
structure PollResult where
  pollin : Option Dequeued
  pollout : Option Nat
deriving DecidableEq

/-- The members of the encoder object that the three threads use. -/
structure V4LEncoder where
  in_width_ : Int
  in_height_ : Int
  h265 : Bool
  write : Bool
  is_open : Bool
  counter : Int
  segment_num : Int
  free_buf_in : List Nat
  extras : List VisionIpcBufExtra
  to_write : List (Option EncodeData)
deriving DecidableEq

/-- Locals of `dequeue_handler` (lines 111, 112, 120). -/
structure DequeueLocals where
  idx : Nat
  exit : Bool
  header : Bytes
deriving DecidableEq

/-- Locals of `write_handler` (line 74); `done` once the sentinel was popped. -/
structure WriterLocals where
  first : Bool
  done : Bool
deriving DecidableEq

/-- Where the caller stands inside `encoder_close`. -/
inductive CallerPc where
  | idle
  | close_pop (i : Nat)
  | close_join_dq
  | close_join_wr
deriving DecidableEq

/-- The three threads of control. -/
inductive Thread where
  | caller
  | dequeue
  | writer
deriving DecidableEq

/-- The encoder object, its threads and what they did to the outside world.
`dq`/`wr` are the two `std::thread` members: `some` while joinable.
`dev_in` are the input buffers the device holds (index and timestamp given to
`queue_buffer`), `queued_out` logs the capture buffers queued, `published` the
messages sent on the bus, `writes` the calls on the container writer and `returned`
the values `encode_frame` returned. -/
structure System where
  e : V4LEncoder
  dq : Option DequeueLocals
  wr : Option WriterLocals
  caller : CallerPc
  dev_in : List (Nat × timeval)
  queued_out : List Nat
  published : List EncodeData
  writes : List WriteCall
  returned : List Int
deriving DecidableEq

/-- How an action ends: it completes with a new state, an assertion fails (with the
state at the abort), or the acting thread has to wait. -/
inductive Outcome where
  | ok (s : System)
  | fatal (s : System)
  | waits (t : Thread)
deriving DecidableEq

/-! ## The constructor and `encoder_open` -/

/-- Lines 199-329, as far as the session state goes: `BUF_OUT_COUNT` capture buffers are
queued, `BUF_IN_COUNT` input indices are pushed on `free_buf_in`.  The two counts and the
default member initialisers come from the class declaration and are arguments here. -/
def V4LEncoder.construct (BUF_IN_COUNT BUF_OUT_COUNT : Nat) (in_width in_height : Int)
    (h265 write : Bool) (is_open0 : Bool) (counter0 segment_num0 : Int) : System :=
  { e := { in_width_ := in_width, in_height_ := in_height, h265 := h265, write := write,
           is_open := is_open0, counter := counter0, segment_num := segment_num0,
           free_buf_in := List.range BUF_IN_COUNT, extras := [], to_write := [] },
    dq := none, wr := none, caller := CallerPc.idle,
    dev_in := [], queued_out := List.range BUF_OUT_COUNT,
    published := [], writes := [], returned := [] }

/-- Lines 110-112 and 120: what `dequeue_handler` does before its loop, as a thread of
its own started on the encoder. -/
def dequeue_handler_entry (s : System) : System :=
  { s with e := { s.e with segment_num := toInt32 (s.e.segment_num + 1) },
           dq := some { idx := 4294967295, exit := false, header := [] } }

/-- Lines 332-337, with the first statements of the started `dequeue_handler`
(`dequeue_handler_entry`) and of `write_handler` (line 74).  Assigning to a
`std::thread` that is still joinable terminates the process. -/
def encoder_open (s : System) : Outcome :=
  if s.dq.isSome then Outcome.fatal s
  else
    let s1 : System := dequeue_handler_entry s
    if s.e.write && s.wr.isSome then Outcome.fatal s1
    else
      let s2 : System :=
        if s.e.write then { s1 with wr := some { first := true, done := false } } else s1
      Outcome.ok { s2 with e := { s2.e with is_open := true, counter := 0 } }

/-! ## `encode_frame` -/

/-- Lines 362-365. -/
def encode_timestamp (extra : VisionIpcBufExtra) : timeval :=
  { tv_sec := toInt64 ((extra.timestamp_eof / 1000000000 : Nat) : Int),
    tv_usec := toInt64 (((extra.timestamp_eof / 1000) % 1000000 : Nat) : Int) }

/-- Lines 339-373.  `err` is what the external `I420ToNV12` returned. -/
def encode_frame (s : System) (in_width in_height : Int) (extra : VisionIpcBufExtra)
    (err : Int) : Outcome :=
  if in_width != s.e.in_width_ then Outcome.fatal s
  else if in_height != s.e.in_height_ then Outcome.fatal s
  else if !s.e.is_open then Outcome.fatal s
  else
    match s.e.free_buf_in with
    | [] => Outcome.waits Thread.caller
    | buffer_in :: rest =>
      let s1 : System := { s with e := { s.e with free_buf_in := rest } }
      if err != 0 then Outcome.fatal s1
      else
        Outcome.ok
          { s1 with
            e := { s1.e with extras := s1.e.extras ++ [extra],
                             counter := toInt32 (s1.e.counter + 1) },
            dev_in := s1.dev_in ++ [(buffer_in, encode_timestamp extra)],
            returned := s1.returned ++ [s1.e.counter] }

/-! ## `dequeue_handler` -/

/-- Line 137. -/
def completion_ts (timestamp : timeval) : Int :=
  toInt64 (timestamp.tv_sec * 1000000 + timestamp.tv_usec)

/-- The comparison asserted at line 148, between `uint64_t` and `int64_t`. -/
def in_sync (extra : VisionIpcBufExtra) (ts : Int) : Bool :=
  extra.timestamp_eof / 1000 == toUInt64 ts

/-- Lines 154-170. -/
def build_packet (e : V4LEncoder) (extra : VisionIpcBufExtra) (idx : Nat) (d : Dequeued)
    (header : Bytes) : EncodeData :=
  { frameId := extra.frame_id,
    timestampSof := extra.timestamp_sof,
    timestampEof := extra.timestamp_eof,
    type := if e.h265 then EncodeType.FULL_H_E_V_C else EncodeType.QCAMERA_H264,
    encodeId := idx,
    segmentNum := e.segment_num,
    segmentId := idx,
    flags := d.flags,
    len := d.bytesused,
    data := d.buf.take d.bytesused,
    header := if hasFlag d.flags V4L2_BUF_FLAG_KEYFRAME then header else [] }

/-- Line 188. -/
def requeue_out (s : System) (index : Nat) : System :=
  { s with queued_out := s.queued_out ++ [index] }

/-- Lines 131-189: the `POLLIN` branch of one loop iteration. -/
def on_pollin (s : System) (l : DequeueLocals) (d : Dequeued) : Outcome :=
  let ts := completion_ts d.timestamp
  if hasFlag d.flags V4L2_QCOM_BUF_FLAG_EOS then
    let s1 : System :=
      if s.e.write then { s with e := { s.e with to_write := s.e.to_write ++ [none] } } else s
    Outcome.ok (requeue_out { s1 with dq := some { l with exit := true } } d.index)
  else if hasFlag d.flags V4L2_QCOM_BUF_FLAG_CODECCONFIG then
    Outcome.ok
      (requeue_out { s with dq := some { l with header := d.buf.take d.bytesused } } d.index)
  else
    match s.e.extras with
    | [] => Outcome.waits Thread.dequeue
    | extra :: rest =>
      let s1 : System := { s with e := { s.e with extras := rest } }
      if !in_sync extra ts then Outcome.fatal s1
      else
        let idx := (l.idx + 1) % 4294967296
        let words := build_packet s1.e extra idx d l.header
        let s2 : System :=
          { s1 with dq := some { l with idx := idx }, published := s1.published ++ [words] }
        let s3 : System :=
          if s2.e.write then
            { s2 with e := { s2.e with to_write := s2.e.to_write ++ [some words] } }
          else s2
        Outcome.ok (requeue_out s3 d.index)

/-- Lines 191-195: the `POLLOUT` branch; the device gives the buffer up. -/
def on_pollout (s : System) (index : Nat) : System :=
  { s with e := { s.e with free_buf_in := s.e.free_buf_in ++ [index] },
           dev_in := s.dev_in.filter (fun b => b.1 != index) }

/-- One iteration of the loop of lines 122-196 on the readiness `p`.  When the thread
is not in its loop (never started, or `exit` set) nothing is dequeued. -/
def dequeue_handler_loop (s : System) (p : PollResult) : Outcome :=
  match s.dq with
  | none => Outcome.ok s
  | some l =>
    if l.exit then Outcome.ok s
    else
      match (match p.pollin with
             | none => Outcome.ok s
             | some d => on_pollin s l d) with
      | Outcome.ok s1 =>
        (match p.pollout with
         | none => Outcome.ok s1
         | some index => Outcome.ok (on_pollout s1 index))
      | o => o

/-- The state after a data completion that passes the check of line 148. -/
def after_data (s : System) (l : DequeueLocals) (d : Dequeued) (extra : VisionIpcBufExtra)
    (rest : List VisionIpcBufExtra) : System :=
  let idx := (l.idx + 1) % 4294967296
  let words := build_packet { s.e with extras := rest } extra idx d l.header
  { s with
    e := { s.e with extras := rest,
                    to_write := if s.e.write then s.e.to_write ++ [some words]
                                else s.e.to_write },
    dq := some { l with idx := idx },
    published := s.published ++ [words],
    queued_out := s.queued_out ++ [d.index] }

/-! ## `write_handler` -/

/-- Lines 83-97: the body of the loop for one popped message; `none` is the failed
assertion of line 87. -/
def write_packet (first : Bool) (m : EncodeData) : Option (List WriteCall) :=
  let flags := m.flags
  if first && !hasFlag flags V4L2_BUF_FLAG_KEYFRAME then none
  else
    let w1 : List WriteCall :=
      if first then
        [{ data := m.header, len := m.header.length, timestamp := m.timestampEof / 1000,
           codecconfig := true, keyframe := false }]
      else []
    let w2 : List WriteCall :=
      if m.data.length > 0 then
        [{ data := m.data, len := m.data.length, timestamp := m.timestampEof / 1000,
           codecconfig := false, keyframe := hasFlag flags V4L2_BUF_FLAG_KEYFRAME }]
      else []
    some (w1 ++ w2)

/-- Lines 74-101 run on the items popped from `to_write`, in order, until the
sentinel: the calls made on the container writer, and whether line 87 aborted. -/
def write_handler : Bool → List (Option EncodeData) → List WriteCall × Bool
  | _, [] => ([], false)
  | _, none :: _ => ([], false)
  | first, some m :: rest =>
    match write_packet first m with
    | none => ([], true)
    | some ws =>
      let r := write_handler false rest
      (ws ++ r.1, r.2)

/-- One iteration of the loop of line 76 inside the system. -/
def write_handler_loop (s : System) : Outcome :=
  match s.wr with
  | none => Outcome.waits Thread.writer
  | some l =>
    if l.done then Outcome.waits Thread.writer
    else
      match s.e.to_write with
      | [] => Outcome.waits Thread.writer
      | none :: rest =>
        Outcome.ok { s with e := { s.e with to_write := rest },
                            wr := some { l with done := true } }
      | some m :: rest =>
        let s1 : System := { s with e := { s.e with to_write := rest } }
        match write_packet l.first m with
        | none => Outcome.fatal s1
        | some ws =>
          Outcome.ok { s1 with wr := some { l with first := false },
                               writes := s1.writes ++ ws }

/-! ## `encoder_close` -/

/-- Lines 384-389 from the return of `dequeue_handler_thread.join()` on, up to the
join of the writer. -/
def close_after_dq (s : System) : Outcome :=
  if !s.e.extras.isEmpty then Outcome.fatal s
  else if s.e.write then Outcome.ok { s with caller := CallerPc.close_join_wr }
  else if !s.e.to_write.isEmpty then Outcome.fatal s
  else Outcome.ok { s with e := { s.e with is_open := false }, caller := CallerPc.idle }

/-- Lines 375-390, advanced from one blocking point to the next: the call itself, one
`free_buf_in.pop()` of the first loop, the second loop with the stop command, the join
of the dequeue thread, the join of the writer thread.  Joining a thread that is not
joinable throws. -/
def encoder_close (BUF_IN_COUNT : Nat) (s : System) : Outcome :=
  match s.caller with
  | CallerPc.idle =>
    if s.e.is_open then Outcome.ok { s with caller := CallerPc.close_pop 0 }
    else Outcome.ok { s with e := { s.e with is_open := false } }
  | CallerPc.close_pop i =>
    if i < BUF_IN_COUNT then
      match s.e.free_buf_in with
      | [] => Outcome.waits Thread.caller
      | _ :: rest =>
        Outcome.ok { s with e := { s.e with free_buf_in := rest },
                            caller := CallerPc.close_pop (i + 1) }
    else
      Outcome.ok
        { s with e := { s.e with free_buf_in := s.e.free_buf_in ++ List.range BUF_IN_COUNT },
                 caller := CallerPc.close_join_dq }
  | CallerPc.close_join_dq =>
    match s.dq with
    | none => Outcome.fatal s
    | some l =>
      if l.exit then close_after_dq { s with dq := none }
      else Outcome.waits Thread.caller
  | CallerPc.close_join_wr =>
    match s.wr with
    | none => Outcome.fatal s
    | some l =>
      if l.done then
        let s1 : System := { s with wr := none }
        if !s1.e.to_write.isEmpty then Outcome.fatal s1
        else Outcome.ok { s1 with e := { s1.e with is_open := false }, caller := CallerPc.idle }
      else Outcome.waits Thread.caller

/-! ## Executions -/

/-- The atomic actions of the three threads: the calls of the caller (`encoder_close`
one blocking point at a time), an iteration of the dequeue loop on the readiness `p`,
an iteration of the writer loop. -/
inductive Action where
  | encoder_open
  | encode_frame (in_width in_height : Int) (extra : VisionIpcBufExtra) (err : Int)
  | encoder_close
  | poll (p : PollResult)
  | write_pop
deriving DecidableEq

/-- One atomic action.  The caller cannot start another call while it is inside
`encoder_close`. -/
def step (BUF_IN_COUNT : Nat) (s : System) : Action → Outcome
  | Action.encoder_open =>
    if s.caller = CallerPc.idle then encoder_open s else Outcome.waits Thread.caller
  | Action.encode_frame w h extra err =>
    if s.caller = CallerPc.idle then encode_frame s w h extra err
    else Outcome.waits Thread.caller
  | Action.encoder_close => encoder_close BUF_IN_COUNT s
  | Action.poll p => dequeue_handler_loop s p
  | Action.write_pop => write_handler_loop s

/-- An execution: the actions in order, stopping at the first that does not complete. -/
def run (BUF_IN_COUNT : Nat) : System → List Action → Outcome
  | s, [] => Outcome.ok s
  | s, a :: rest =>
    match step BUF_IN_COUNT s a with
    | Outcome.ok s1 => run BUF_IN_COUNT s1 rest
    | o => o

/-! ## States after the branches of a loop iteration -/

/-- After the `POLLIN` branch completed with `s1`, the `POLLOUT` branch. -/
def after_pollout (s1 : System) (p : PollResult) : System :=
  match p.pollout with
  | none => s1
  | some index => on_pollout s1 index

/-- The state after an end-of-stream buffer was handled (lines 140-142, 188). -/
def after_eos (s : System) (l : DequeueLocals) (d : Dequeued) : System :=
  { s with
    e := { s.e with to_write := if s.e.write then s.e.to_write ++ [none] else s.e.to_write },
    dq := some { l with exit := true },
    queued_out := s.queued_out ++ [d.index] }

/-- The state after a codec-config buffer was handled (lines 143-145, 188). -/
def after_config (s : System) (l : DequeueLocals) (d : Dequeued) : System :=
  { s with dq := some { l with header := d.buf.take d.bytesused },
           queued_out := s.queued_out ++ [d.index] }

/-- The message published for a data completion by the iteration that leads to
`after_data`. -/
def data_packet (s : System) (l : DequeueLocals) (d : Dequeued) (extra : VisionIpcBufExtra)
    (rest : List VisionIpcBufExtra) : EncodeData :=
  build_packet { s.e with extras := rest } extra ((l.idx + 1) % 4294967296) d l.header

/-- The state after a completed `encode_frame` that took the free buffer `buffer_in`. -/
def after_frame (s : System) (extra : VisionIpcBufExtra) (buffer_in : Nat)
    (rest : List Nat) : System :=
  { s with
    e := { s.e with free_buf_in := rest, extras := s.e.extras ++ [extra],
                    counter := toInt32 (s.e.counter + 1) },
    dev_in := s.dev_in ++ [(buffer_in, encode_timestamp extra)],
    returned := s.returned ++ [s.e.counter] }

/-- The header record written for the first message. -/
def header_record (m : EncodeData) : WriteCall :=
  { data := m.header, len := m.header.length, timestamp := m.timestampEof / 1000,
    codecconfig := true, keyframe := false }

/-- The payload record written for a message, if it has payload bytes. -/
def payload_records (m : EncodeData) : List WriteCall :=
  if m.data.length > 0 then
    [{ data := m.data, len := m.data.length, timestamp := m.timestampEof / 1000,
       codecconfig := false, keyframe := hasFlag m.flags V4L2_BUF_FLAG_KEYFRAME }]
  else []

/-- The ways one readiness event can pass through `dequeue_handler_loop`. -/
inductive PollCase (s : System) (p : PollResult) : System → Prop where
  | no_thread : s.dq = none → PollCase s p s
  | exited (l : DequeueLocals) : s.dq = some l → l.exit = true → PollCase s p s
  | timeout (l : DequeueLocals) : s.dq = some l → l.exit = false → p.pollin = none →
      PollCase s p (after_pollout s p)
  | eos (l : DequeueLocals) (d : Dequeued) : s.dq = some l → l.exit = false →
      p.pollin = some d → hasFlag d.flags V4L2_QCOM_BUF_FLAG_EOS = true →
      PollCase s p (after_pollout (after_eos s l d) p)
  | config (l : DequeueLocals) (d : Dequeued) : s.dq = some l → l.exit = false →
      p.pollin = some d → hasFlag d.flags V4L2_QCOM_BUF_FLAG_EOS = false →
      hasFlag d.flags V4L2_QCOM_BUF_FLAG_CODECCONFIG = true →
      PollCase s p (after_pollout (after_config s l d) p)
  | data (l : DequeueLocals) (d : Dequeued) (extra : VisionIpcBufExtra)
      (rest : List VisionIpcBufExtra) : s.dq = some l → l.exit = false →
      p.pollin = some d → hasFlag d.flags V4L2_QCOM_BUF_FLAG_EOS = false →
      hasFlag d.flags V4L2_QCOM_BUF_FLAG_CODECCONFIG = false →
      s.e.extras = extra :: rest → in_sync extra (completion_ts d.timestamp) = true →
      PollCase s p (after_pollout (after_data s l d extra rest) p)

/-! ## What an action can change -/

/-- The fields a loop iteration of `dequeue_handler` can write. -/
def poll_footprint (s s1 : System) : Prop :=
  ∃ fb ex tw dq dev qo pub,
    s1 = { s with e := { s.e with free_buf_in := fb, extras := ex, to_write := tw },
                  dq := dq, dev_in := dev, queued_out := qo, published := pub }

/-- The fields `encoder_close` can write. -/
def close_footprint (s s1 : System) : Prop :=
  ∃ fb op dq wr pc,
    s1 = { s with e := { s.e with free_buf_in := fb, is_open := op },
                  dq := dq, wr := wr, caller := pc }

/-- The fields a loop iteration of `write_handler` can write. -/
def write_footprint (s s1 : System) : Prop :=
  ∃ tw wr ws, s1 = { s with e := { s.e with to_write := tw }, wr := wr, writes := ws }

/-! ## Observations on executions -/

/-- The frames handed to `encode_frame` in an execution, in order. -/
def submitted : List Action → List VisionIpcBufExtra
  | [] => []
  | Action.encode_frame _ _ extra _ :: rest => extra :: submitted rest
  | Action.encoder_open :: rest => submitted rest
  | Action.encoder_close :: rest => submitted rest
  | Action.poll _ :: rest => submitted rest
  | Action.write_pop :: rest => submitted rest

/-- The flags and header bytes the packets of a dequeue loop are to carry, read off the
buffers it is given, `cached` being the codec-config bytes cached so far: a
codec-config buffer replaces the cache and yields no packet, a data buffer yields a
packet with the cached bytes if its keyframe flag is set and without header bytes
otherwise, an end-of-stream buffer ends the loop. -/
def expected_headers (cached : Bytes) : List Action → List (Nat × Bytes)
  | [] => []
  | Action.poll p :: rest =>
    match p.pollin with
    | none => expected_headers cached rest
    | some d =>
      if hasFlag d.flags V4L2_QCOM_BUF_FLAG_EOS then []
      else if hasFlag d.flags V4L2_QCOM_BUF_FLAG_CODECCONFIG then
        expected_headers (d.buf.take d.bytesused) rest
      else
        (d.flags, if hasFlag d.flags V4L2_BUF_FLAG_KEYFRAME then cached else [])
          :: expected_headers cached rest
  | Action.encoder_open :: rest => expected_headers cached rest
  | Action.encode_frame _ _ _ _ :: rest => expected_headers cached rest
  | Action.encoder_close :: rest => expected_headers cached rest
  | Action.write_pop :: rest => expected_headers cached rest

/-- The packets of one cycle: `pk` are numbered from the successor of the `idx` of the
dequeue thread of `s` and carry the segment number of `s`. -/
def numbered_from (s : System) (pk : List EncodeData) : Prop :=
  ∀ (k : Nat) (p : EncodeData), pk[k]? = some p →
    ∃ l, s.dq = some l ∧ p.encodeId = (l.idx + 1 + k) % 4294967296 ∧
      p.segmentId = p.encodeId ∧ p.segmentNum = s.e.segment_num

/-! ## Ownership of the input buffers -/

/-- The indices of the input buffers the device holds. -/
def in_flight (s : System) : List Nat := s.dev_in.map Prod.fst

/-- The device reports an input buffer as released only if it holds that buffer. -/
def releases_held (s : System) : Action → Bool
  | Action.poll p =>
    match p.pollout with
    | none => true
    | some i => decide (i ∈ in_flight s)
  | Action.encoder_open => true
  | Action.encode_frame _ _ _ _ => true
  | Action.encoder_close => true
  | Action.write_pop => true

/-- The device keeps to `releases_held` along an execution. -/
def releases_held_along (BUF_IN_COUNT : Nat) : System → List Action → Bool
  | _, [] => true
  | s, a :: rest =>
    releases_held s a &&
      match step BUF_IN_COUNT s a with
      | Outcome.ok s1 => releases_held_along BUF_IN_COUNT s1 rest
      | Outcome.fatal _ => true
      | Outcome.waits _ => true

/-- The states an encoder object reaches from `s0` by `encoder_open`, `encode_frame`,
`encoder_close`, iterations of the two worker loops, with a device that releases only
input buffers it holds. -/
inductive Reachable (BUF_IN_COUNT : Nat) (s0 : System) : System → Prop where
  | start : Reachable BUF_IN_COUNT s0 s0
  | next (s s1 : System) (a : Action) : Reachable BUF_IN_COUNT s0 s →
      releases_held s a = true → step BUF_IN_COUNT s a = Outcome.ok s1 →
      Reachable BUF_IN_COUNT s0 s1

/-- Ownership of the input buffers: no index is owned twice, every owned index is below
`BUF_IN_COUNT`, and the number of owned indices is what the caller's position implies
(all of them, or all but the `i` taken by the first loop of `encoder_close`; after the
second loop the pool is `0 .. BUF_IN_COUNT-1` and the device holds nothing). -/
def pool_ok (n : Nat) (free infl : List Nat) (pc : CallerPc) : Prop :=
  (free ++ infl).Nodup ∧ (∀ i ∈ free ++ infl, i < n) ∧
  match pc with
  | CallerPc.idle => free.length + infl.length = n
  | CallerPc.close_pop i => free.length + infl.length + i = n
  | CallerPc.close_join_dq => free = List.range n ∧ infl = []
  | CallerPc.close_join_wr => free = List.range n ∧ infl = []

/-- The invariant of the session state. -/
def session_inv (n : Nat) (s : System) : Prop :=
  pool_ok n s.e.free_buf_in (in_flight s) s.caller ∧
  (s.caller = CallerPc.close_join_wr → s.e.extras = [])

/-! ## Concrete sessions used for evaluation -/

/-- An encoder with seven input and six capture buffers, writing enabled, as left by the
constructor. -/
def fresh : System := V4LEncoder.construct 7 6 1928 1208 true true false 0 (-1)

/-- The state of `fresh` after `encoder_open`. -/
def opened : System :=
  { fresh with
    e := { fresh.e with segment_num := 0, is_open := true, counter := 0 },
    dq := some { idx := 4294967295, exit := false, header := [] },
    wr := some { first := true, done := false } }

/-- A first frame. -/
def frame_a : VisionIpcBufExtra :=
  { frame_id := 10, timestamp_sof := 4999000000, timestamp_eof := 5000000123 }

/-- A second frame, 50 ms later. -/
def frame_b : VisionIpcBufExtra :=
  { frame_id := 11, timestamp_sof := 5049000000, timestamp_eof := 5050000456 }

/-- A codec-config buffer. -/
def ev_config : Dequeued :=
  { index := 0, bytesused := 2, flags := 0x00020000, timestamp := ⟨0, 0⟩, buf := [103, 66, 7] }

/-- The completion of `frame_a`, a keyframe. -/
def ev_a : Dequeued :=
  { index := 1, bytesused := 3, flags := 0x8, timestamp := encode_timestamp frame_a,
    buf := [1, 2, 3, 4] }

/-- The completion of `frame_b`, not a keyframe. -/
def ev_b : Dequeued :=
  { index := 2, bytesused := 1, flags := 0, timestamp := encode_timestamp frame_b,
    buf := [9, 9] }

/-- An end-of-stream buffer. -/
def ev_eos : Dequeued :=
  { index := 3, bytesused := 0, flags := 0x02000000, timestamp := ⟨0, 0⟩, buf := [] }

/-- Two frames wait in `extras`, `frame_a` first. -/
def desync_state : System := { opened with e := { opened.e with extras := [frame_a, frame_b] } }

/-- A keyframe message without header bytes: what `dequeue_handler` builds for `ev_a`
when no codec-config buffer came before it. -/
def headerless_keyframe : EncodeData :=
  build_packet opened.e frame_a 0 ev_a []

/-- A whole session on seven input buffers: two frames, their completions after a
codec-config buffer, the release of both input buffers, then `encoder_close` step by
step with the end-of-stream buffer and the writer draining its queue. -/
def session : List Action :=
  [ Action.encode_frame 1928 1208 frame_a 0,
    Action.poll ⟨some ev_config, none⟩,
    Action.encode_frame 1928 1208 frame_b 0,
    Action.poll ⟨some ev_a, some 0⟩,
    Action.write_pop,
    Action.poll ⟨some ev_b, none⟩,
    Action.encoder_close,
    Action.encoder_close, Action.encoder_close, Action.encoder_close,
    Action.encoder_close, Action.encoder_close,
    Action.poll ⟨none, some 1⟩,
    Action.encoder_close, Action.encoder_close,
    Action.encoder_close,
    Action.write_pop,
    Action.poll ⟨some ev_eos, none⟩,
    Action.encoder_close,
    Action.write_pop,
    Action.encoder_close ]

/-- The state of `opened` after `encode_frame` took input buffer 0 for `frame_a`. -/
def one_in_flight : System := after_frame opened frame_a 0 [1, 2, 3, 4, 5, 6]

/-- The state of `fresh` after `encoder_open` and `session` up to the last step of
`encoder_close`, which is waiting to join the writer thread that has ended. -/
def closing : System :=
  { fresh with
    e := { fresh.e with segment_num := 0, counter := 2, is_open := true },
    wr := some { first := false, done := true },
    caller := CallerPc.close_join_wr,
    queued_out := [0, 1, 2, 3, 4, 5, 0, 1, 2, 3],
    published := [build_packet opened.e frame_a 0 ev_a [103, 66],
                  build_packet opened.e frame_b 1 ev_b [103, 66]],
    writes := [header_record (build_packet opened.e frame_a 0 ev_a [103, 66])]
      ++ payload_records (build_packet opened.e frame_a 0 ev_a [103, 66])
      ++ payload_records (build_packet opened.e frame_b 1 ev_b [103, 66]),
    returned := [0, 1] }

/-! # Theorems -/

/-! ## The device timestamp -/

theorem encode_timestamp_exact (extra : VisionIpcBufExtra)
    (h : extra.timestamp_eof < 18446744073709551616) :
    (encode_timestamp extra).tv_sec = ((extra.timestamp_eof / 1000000000 : Nat) : Int) ∧
    (encode_timestamp extra).tv_usec = (((extra.timestamp_eof / 1000) % 1000000 : Nat) : Int) := by
  unfold encode_timestamp toInt64
  constructor <;> simp only <;> omega

theorem completion_ts_echo (extra : VisionIpcBufExtra)
    (h : extra.timestamp_eof < 18446744073709551616) :
    completion_ts (encode_timestamp extra) = ((extra.timestamp_eof / 1000 : Nat) : Int) := by
  obtain ⟨h1, h2⟩ := encode_timestamp_exact extra h
  unfold completion_ts toInt64
  rw [h1, h2]
  omega

theorem in_sync_echo (extra : VisionIpcBufExtra)
    (h : extra.timestamp_eof < 18446744073709551616) :
    in_sync extra (completion_ts (encode_timestamp extra)) = true := by
  rw [completion_ts_echo extra h]
  unfold in_sync toUInt64
  simp only [beq_iff_eq]
  omega

/-! ## Single steps of the dequeue loop -/

theorem on_pollin_eos (s : System) (l : DequeueLocals) (d : Dequeued)
    (hE : hasFlag d.flags V4L2_QCOM_BUF_FLAG_EOS = true) :
    on_pollin s l d = Outcome.ok (requeue_out
      { (if s.e.write then { s with e := { s.e with to_write := s.e.to_write ++ [none] } }
          else s) with dq := some { l with exit := true } } d.index) := by
  simp [on_pollin, hE]

theorem on_pollin_config (s : System) (l : DequeueLocals) (d : Dequeued)
    (hE : hasFlag d.flags V4L2_QCOM_BUF_FLAG_EOS = false)
    (hC : hasFlag d.flags V4L2_QCOM_BUF_FLAG_CODECCONFIG = true) :
    on_pollin s l d = Outcome.ok (requeue_out
      { s with dq := some { l with header := d.buf.take d.bytesused } } d.index) := by
  simp [on_pollin, hE, hC]

theorem on_pollin_data_empty (s : System) (l : DequeueLocals) (d : Dequeued)
    (hE : hasFlag d.flags V4L2_QCOM_BUF_FLAG_EOS = false)
    (hC : hasFlag d.flags V4L2_QCOM_BUF_FLAG_CODECCONFIG = false)
    (hq : s.e.extras = []) :
    on_pollin s l d = Outcome.waits Thread.dequeue := by
  simp [on_pollin, hE, hC, hq]

theorem on_pollin_data_desync (s : System) (l : DequeueLocals) (d : Dequeued)
    (extra : VisionIpcBufExtra) (rest : List VisionIpcBufExtra)
    (hE : hasFlag d.flags V4L2_QCOM_BUF_FLAG_EOS = false)
    (hC : hasFlag d.flags V4L2_QCOM_BUF_FLAG_CODECCONFIG = false)
    (hq : s.e.extras = extra :: rest)
    (hm : in_sync extra (completion_ts d.timestamp) = false) :
    on_pollin s l d = Outcome.fatal { s with e := { s.e with extras := rest } } := by
  simp [on_pollin, hE, hC, hq, hm]

theorem on_pollin_data_sync (s : System) (l : DequeueLocals) (d : Dequeued)
    (extra : VisionIpcBufExtra) (rest : List VisionIpcBufExtra)
    (hE : hasFlag d.flags V4L2_QCOM_BUF_FLAG_EOS = false)
    (hC : hasFlag d.flags V4L2_QCOM_BUF_FLAG_CODECCONFIG = false)
    (hq : s.e.extras = extra :: rest)
    (hm : in_sync extra (completion_ts d.timestamp) = true) :
    on_pollin s l d = Outcome.ok (after_data s l d extra rest) := by
  cases hw : s.e.write <;>
    simp [on_pollin, hE, hC, hq, hm, after_data, requeue_out, hw]

/-! ## C10 -/

/-- C10: for every 64-bit end-of-frame time `t`, the timestamp `encode_frame` builds has
`tv_sec = t / 10^9` and `tv_usec = (t / 1000) mod 10^6` with `0 <= tv_usec < 10^6`,
`tv_sec * 10^6 + tv_usec = t / 1000` exactly (line 137 computes it without 64-bit
overflow), `encode_frame` hands that timestamp to the device, and a data completion that
echoes it while the frame heads `extras` passes the check of line 148: the loop iteration
is not fatal and publishes a packet. -/
theorem C10_timestamp_echo_in_sync (extra : VisionIpcBufExtra)
    (ht : extra.timestamp_eof < 18446744073709551616) :
    (encode_timestamp extra).tv_sec = ((extra.timestamp_eof / 1000000000 : Nat) : Int) ∧
    (encode_timestamp extra).tv_usec
      = (((extra.timestamp_eof / 1000) % 1000000 : Nat) : Int) ∧
    0 ≤ (encode_timestamp extra).tv_usec ∧ (encode_timestamp extra).tv_usec < 1000000 ∧
    (encode_timestamp extra).tv_sec * 1000000 + (encode_timestamp extra).tv_usec
      = ((extra.timestamp_eof / 1000 : Nat) : Int) ∧
    completion_ts (encode_timestamp extra)
      = (encode_timestamp extra).tv_sec * 1000000 + (encode_timestamp extra).tv_usec ∧
    in_sync extra (completion_ts (encode_timestamp extra)) = true ∧
    (∀ (s s1 : System) (w h err : Int), encode_frame s w h extra err = Outcome.ok s1 →
      ∃ buffer_in, s1.dev_in = s.dev_in ++ [(buffer_in, encode_timestamp extra)]) ∧
    (∀ (s : System) (l : DequeueLocals) (d : Dequeued) (rest : List VisionIpcBufExtra),
      hasFlag d.flags V4L2_QCOM_BUF_FLAG_EOS = false →
      hasFlag d.flags V4L2_QCOM_BUF_FLAG_CODECCONFIG = false →
      s.e.extras = extra :: rest → d.timestamp = encode_timestamp extra →
      on_pollin s l d = Outcome.ok (after_data s l d extra rest)) := by
  obtain ⟨h1, h2⟩ := encode_timestamp_exact extra ht
  have h3 := completion_ts_echo extra ht
  have h4 := in_sync_echo extra ht
  refine ⟨h1, h2, ?_, ?_, ?_, ?_, h4, ?_, ?_⟩
  · rw [h2]; omega
  · rw [h2]; omega
  · rw [h1, h2]; omega
  · rw [h3, h1, h2]; omega
  · intro s s1 w h err hs
    unfold encode_frame at hs
    split at hs
    · simp at hs
    · split at hs
      · simp at hs
      · split at hs
        · simp at hs
        · split at hs
          · simp at hs
          · rename_i buffer_in rest _
            split at hs
            · simp at hs
            · refine ⟨buffer_in, ?_⟩
              rw [← Outcome.ok.inj hs]
  · intro s l d rest hE hC hq hd
    exact on_pollin_data_sync s l d extra rest hE hC hq (by rw [hd]; exact h4)

theorem C10_timestamp_echo_in_sync_witness :
    frame_a.timestamp_eof < 18446744073709551616 ∧
    (encode_timestamp frame_a).tv_sec * 1000000 + (encode_timestamp frame_a).tv_usec
      = ((frame_a.timestamp_eof / 1000 : Nat) : Int) :=
  ⟨by simp [frame_a], (C10_timestamp_echo_in_sync frame_a (by simp [frame_a])).2.2.2.2.1⟩


/-! ## One iteration of the dequeue loop -/

theorem dequeue_handler_loop_running (s : System) (l : DequeueLocals) (p : PollResult)
    (hdq : s.dq = some l) (hx : l.exit = false) :
    dequeue_handler_loop s p =
      match (match p.pollin with
             | none => Outcome.ok s
             | some d => on_pollin s l d) with
      | Outcome.ok s1 =>
        (match p.pollout with
         | none => Outcome.ok s1
         | some index => Outcome.ok (on_pollout s1 index))
      | o => o := by
  simp [dequeue_handler_loop, hdq, hx]

theorem dequeue_handler_loop_exited (s : System) (l : DequeueLocals) (p : PollResult)
    (hdq : s.dq = some l) (hx : l.exit = true) : dequeue_handler_loop s p = Outcome.ok s := by
  simp [dequeue_handler_loop, hdq, hx]

theorem dequeue_handler_loop_no_thread (s : System) (p : PollResult) (hdq : s.dq = none) :
    dequeue_handler_loop s p = Outcome.ok s := by
  simp [dequeue_handler_loop, hdq]

theorem dequeue_handler_loop_of_pollin_ok (s s1 : System) (l : DequeueLocals) (p : PollResult)
    (d : Dequeued) (hdq : s.dq = some l) (hx : l.exit = false) (hp : p.pollin = some d)
    (h1 : on_pollin s l d = Outcome.ok s1) :
    dequeue_handler_loop s p = Outcome.ok (after_pollout s1 p) := by
  rw [dequeue_handler_loop_running s l p hdq hx, hp]
  simp only [h1, after_pollout]
  cases p.pollout <;> rfl

theorem dequeue_handler_loop_timeout (s : System) (l : DequeueLocals) (p : PollResult)
    (hdq : s.dq = some l) (hx : l.exit = false) (hp : p.pollin = none) :
    dequeue_handler_loop s p = Outcome.ok (after_pollout s p) := by
  rw [dequeue_handler_loop_running s l p hdq hx, hp]
  simp only [after_pollout]
  cases p.pollout <;> rfl

@[simp] theorem after_pollout_published (s : System) (p : PollResult) :
    (after_pollout s p).published = s.published := by
  unfold after_pollout; cases p.pollout <;> rfl

@[simp] theorem after_pollout_extras (s : System) (p : PollResult) :
    (after_pollout s p).e.extras = s.e.extras := by
  unfold after_pollout; cases p.pollout <;> rfl

@[simp] theorem after_pollout_to_write (s : System) (p : PollResult) :
    (after_pollout s p).e.to_write = s.e.to_write := by
  unfold after_pollout; cases p.pollout <;> rfl

@[simp] theorem after_pollout_dq (s : System) (p : PollResult) :
    (after_pollout s p).dq = s.dq := by
  unfold after_pollout; cases p.pollout <;> rfl

@[simp] theorem after_pollout_queued_out (s : System) (p : PollResult) :
    (after_pollout s p).queued_out = s.queued_out := by
  unfold after_pollout; cases p.pollout <;> rfl

@[simp] theorem after_pollout_caller (s : System) (p : PollResult) :
    (after_pollout s p).caller = s.caller := by
  unfold after_pollout; cases p.pollout <;> rfl

@[simp] theorem after_pollout_is_open (s : System) (p : PollResult) :
    (after_pollout s p).e.is_open = s.e.is_open := by
  unfold after_pollout; cases p.pollout <;> rfl

@[simp] theorem after_pollout_in_width (s : System) (p : PollResult) :
    (after_pollout s p).e.in_width_ = s.e.in_width_ := by
  unfold after_pollout; cases p.pollout <;> rfl

@[simp] theorem after_pollout_in_height (s : System) (p : PollResult) :
    (after_pollout s p).e.in_height_ = s.e.in_height_ := by
  unfold after_pollout; cases p.pollout <;> rfl

@[simp] theorem after_pollout_segment_num (s : System) (p : PollResult) :
    (after_pollout s p).e.segment_num = s.e.segment_num := by
  unfold after_pollout; cases p.pollout <;> rfl

@[simp] theorem after_pollout_write (s : System) (p : PollResult) :
    (after_pollout s p).e.write = s.e.write := by
  unfold after_pollout; cases p.pollout <;> rfl

/-! ## C2 -/

/-- C2: when the dequeue loop handles a data completion (neither end-of-stream nor
codec-config) whose timestamp, as line 137 computes it, differs from the end-of-frame
time of the head of `extras` in microseconds, the assertion of line 148 aborts: the
iteration is fatal, nothing was published and nothing was pushed on `to_write`. -/
theorem C2_desync_is_fatal (n : Nat) (s : System) (l : DequeueLocals) (p : PollResult)
    (d : Dequeued) (extra : VisionIpcBufExtra) (rest : List VisionIpcBufExtra)
    (hdq : s.dq = some l) (hx : l.exit = false) (hp : p.pollin = some d)
    (hE : hasFlag d.flags V4L2_QCOM_BUF_FLAG_EOS = false)
    (hC : hasFlag d.flags V4L2_QCOM_BUF_FLAG_CODECCONFIG = false)
    (hq : s.e.extras = extra :: rest)
    (hm : extra.timestamp_eof / 1000 ≠ toUInt64 (completion_ts d.timestamp)) :
    ∃ s1, step n s (Action.poll p) = Outcome.fatal s1 ∧
      s1.published = s.published ∧ s1.e.to_write = s.e.to_write := by
  have hsync : in_sync extra (completion_ts d.timestamp) = false := by
    simp [in_sync, hm]
  refine ⟨{ s with e := { s.e with extras := rest } }, ?_, rfl, rfl⟩
  show dequeue_handler_loop s p = _
  rw [dequeue_handler_loop_running s l p hdq hx, hp]
  simp only [on_pollin_data_desync s l d extra rest hE hC hq hsync]

theorem C2_desync_is_fatal_witness :
    ∃ s1, step 7 desync_state (Action.poll ⟨some ev_b, none⟩) = Outcome.fatal s1 ∧
      s1.published = desync_state.published ∧ s1.e.to_write = desync_state.e.to_write :=
  C2_desync_is_fatal 7 desync_state { idx := 4294967295, exit := false, header := [] }
    ⟨some ev_b, none⟩ ev_b frame_a [frame_b] rfl rfl rfl (by decide) (by decide) rfl
    (by decide)


/-! ## C5 -/

/-- The concrete session starts as `encoder_open` leaves the fresh encoder. -/
theorem open_fresh : step 7 fresh Action.encoder_open = Outcome.ok opened := by decide

/-- C5, as the code has it: when the dequeue loop handles an output-ready buffer that
carries the end-of-stream flag, the iteration completes; it pushes exactly one sentinel
on `to_write` if the session writes and nothing otherwise, publishes nothing, pops
nothing from `extras`, sets `exit` (every later readiness is left unhandled: the loop
has ended), and line 188, which stands after the whole if/else chain, queues the
capture buffer to the device again. -/
theorem C5_end_of_stream (n : Nat) (s : System) (l : DequeueLocals) (p : PollResult)
    (d : Dequeued) (hdq : s.dq = some l) (hx : l.exit = false) (hp : p.pollin = some d)
    (hE : hasFlag d.flags V4L2_QCOM_BUF_FLAG_EOS = true) :
    ∃ s1, step n s (Action.poll p) = Outcome.ok s1 ∧
      s1.e.to_write = (if s.e.write then s.e.to_write ++ [none] else s.e.to_write) ∧
      s1.published = s.published ∧
      s1.e.extras = s.e.extras ∧
      s1.dq = some { l with exit := true } ∧
      (∀ q, step n s1 (Action.poll q) = Outcome.ok s1) ∧
      s1.queued_out = s.queued_out ++ [d.index] := by
  refine ⟨_, dequeue_handler_loop_of_pollin_ok s _ l p d hdq hx hp (on_pollin_eos s l d hE),
    ?_, ?_, ?_, ?_, ?_, ?_⟩
  · cases hw : s.e.write <;> simp [requeue_out, hw]
  · cases hw : s.e.write <;> simp [requeue_out, hw]
  · cases hw : s.e.write <;> simp [requeue_out, hw]
  · simp [requeue_out]
  · intro q
    exact dequeue_handler_loop_exited _ { l with exit := true } q (by simp [requeue_out]) rfl
  · cases hw : s.e.write <;> simp [requeue_out, hw]

theorem C5_end_of_stream_witness :
    ∃ s1, step 7 opened (Action.poll ⟨some ev_eos, some 4⟩) = Outcome.ok s1 ∧
      s1.e.to_write = (if opened.e.write then opened.e.to_write ++ [none]
                       else opened.e.to_write) ∧
      s1.published = opened.published ∧
      s1.e.extras = opened.e.extras ∧
      s1.dq = some { ({ idx := 4294967295, exit := false, header := [] } : DequeueLocals)
                     with exit := true } ∧
      (∀ q, step 7 s1 (Action.poll q) = Outcome.ok s1) ∧
      s1.queued_out = opened.queued_out ++ [ev_eos.index] :=
  C5_end_of_stream 7 opened { idx := 4294967295, exit := false, header := [] }
    ⟨some ev_eos, some 4⟩ ev_eos rfl rfl rfl (by decide)

/-- C5 as stated fails: the end-of-stream buffer (index 3) is queued to the device
again, after the six buffers the constructor queued. -/
theorem C5_counterexample :
    hasFlag ev_eos.flags V4L2_QCOM_BUF_FLAG_EOS = true ∧
    opened.queued_out = [0, 1, 2, 3, 4, 5] ∧
    ∃ s1, step 7 opened (Action.poll ⟨some ev_eos, none⟩) = Outcome.ok s1 ∧
      s1.queued_out = [0, 1, 2, 3, 4, 5, 3] :=
  ⟨by decide, by decide, _, rfl, by decide⟩

/-! ## C4 -/

theorem write_handler_later (items : List (Option EncodeData)) :
    (write_handler false items).2 = false := by
  induction items with
  | nil => rfl
  | cons x rest ih =>
    cases x with
    | none => rfl
    | some m =>
      simp only [write_handler, write_packet, Bool.false_and, Bool.false_eq_true, if_false]
      exact ih

theorem write_handler_later_payload (items : List (Option EncodeData)) :
    ∀ w ∈ (write_handler false items).1, w.codecconfig = false := by
  induction items with
  | nil => intro w hw; simp [write_handler] at hw
  | cons x rest ih =>
    cases x with
    | none => intro w hw; simp [write_handler] at hw
    | some m =>
      intro w hw
      simp only [write_handler, write_packet, Bool.false_and, Bool.false_eq_true, if_false,
        List.nil_append, List.mem_append] at hw
      rcases hw with hw | hw
      · split at hw
        · simp only [List.mem_singleton] at hw
          rw [hw]
        · simp at hw
      · exact ih w hw

/-- C4, as the code has it: for the first message the writer worker pops (no sentinel
before it), if its flags lack the keyframe flag the worker aborts at line 87 before any
write call; otherwise the worker does not abort on it, whether its header bytes are empty
or not (the code never tests them), and the first call on the container writer passes
these header bytes, tagged as a header record, before any payload write.  The same
holds for the writer thread inside the running system. -/
theorem C4_first_message (n : Nat) (m : EncodeData) (rest : List (Option EncodeData)) :
    (hasFlag m.flags V4L2_BUF_FLAG_KEYFRAME = false →
      write_handler true (some m :: rest) = ([], true) ∧
      ∀ (s : System) (l : WriterLocals), s.wr = some l → l.first = true → l.done = false →
        s.e.to_write = some m :: rest →
        step n s Action.write_pop = Outcome.fatal { s with e := { s.e with to_write := rest } }) ∧
    (hasFlag m.flags V4L2_BUF_FLAG_KEYFRAME = true →
      (∃ ws, write_handler true (some m :: rest) = (header_record m :: ws, false) ∧
        ∀ w ∈ ws, w.codecconfig = false) ∧
      ∀ (s : System) (l : WriterLocals), s.wr = some l → l.first = true → l.done = false →
        s.e.to_write = some m :: rest →
        ∃ s1 ws, step n s Action.write_pop = Outcome.ok s1 ∧
          s1.writes = s.writes ++ header_record m :: ws ∧
          ∀ w ∈ ws, w.codecconfig = false) := by
  constructor
  · intro hk
    refine ⟨by simp [write_handler, write_packet, hk], ?_⟩
    intro s l hwr hf hd hq
    simp [step, write_handler_loop, hwr, hf, hd, hq, write_packet, hk]
  · intro hk
    have hpay : ∀ w ∈ (payload_records m), w.codecconfig = false := by
      intro w hw
      unfold payload_records at hw
      split at hw
      · simp only [List.mem_singleton] at hw
        rw [hw]
      · simp at hw
    have hwp : write_packet true m = some (header_record m :: payload_records m) := by
      simp [write_packet, hk, header_record, payload_records]
    constructor
    · refine ⟨(payload_records m) ++ (write_handler false rest).1, ?_, ?_⟩
      · simp [write_handler, hwp, write_handler_later rest]
      · intro w hw
        rcases List.mem_append.1 hw with hw | hw
        · exact hpay w hw
        · exact write_handler_later_payload rest w hw
    · intro s l hwr hf hd hq
      refine ⟨{ s with e := { s.e with to_write := rest },
                       wr := some { l with first := false },
                       writes := s.writes ++ header_record m :: payload_records m },
        payload_records m, ?_, rfl, hpay⟩
      simp [step, write_handler_loop, hwr, hf, hd, hq, hwp]

theorem C4_first_message_witness :
    hasFlag headerless_keyframe.flags V4L2_BUF_FLAG_KEYFRAME = true ∧
    ∃ ws, write_handler true [some headerless_keyframe, none]
        = (header_record headerless_keyframe :: ws, false) ∧
      ∀ w ∈ ws, w.codecconfig = false :=
  ⟨by decide, ((C4_first_message 7 headerless_keyframe [none]).2 (by decide)).1⟩

/-- C4 as stated fails: a first message with the keyframe flag and no header bytes does
not abort the worker; an empty header record and then the payload are written. -/
theorem C4_counterexample :
    headerless_keyframe.header = [] ∧
    hasFlag headerless_keyframe.flags V4L2_BUF_FLAG_KEYFRAME = true ∧
    write_handler true [some headerless_keyframe, none] =
      ([{ data := [], len := 0, timestamp := 5000000, codecconfig := true, keyframe := false },
        { data := [1, 2, 3], len := 3, timestamp := 5000000, codecconfig := false,
          keyframe := true }], false) :=
  ⟨by decide, by decide, by decide⟩

/-! ## What each action can change -/

theorem on_pollin_footprint (s s1 : System) (l : DequeueLocals) (d : Dequeued)
    (h : on_pollin s l d = Outcome.ok s1) : poll_footprint s s1 := by
  cases hE : hasFlag d.flags V4L2_QCOM_BUF_FLAG_EOS with
  | true =>
    rw [on_pollin_eos s l d hE] at h
    rw [← Outcome.ok.inj h]
    by_cases hw : s.e.write = true
    · rw [if_pos hw]; exact ⟨_, _, _, _, _, _, _, rfl⟩
    · rw [if_neg hw]; exact ⟨_, _, _, _, _, _, _, rfl⟩
  | false =>
    cases hC : hasFlag d.flags V4L2_QCOM_BUF_FLAG_CODECCONFIG with
    | true =>
      rw [on_pollin_config s l d hE hC] at h
      rw [← Outcome.ok.inj h]; exact ⟨_, _, _, _, _, _, _, rfl⟩
    | false =>
      cases hq : s.e.extras with
      | nil =>
        rw [on_pollin_data_empty s l d hE hC hq] at h
        exact absurd h (by simp)
      | cons extra rest =>
        cases hm : in_sync extra (completion_ts d.timestamp) with
        | false =>
          rw [on_pollin_data_desync s l d extra rest hE hC hq hm] at h
          exact absurd h (by simp)
        | true =>
          rw [on_pollin_data_sync s l d extra rest hE hC hq hm] at h
          rw [← Outcome.ok.inj h]; exact ⟨_, _, _, _, _, _, _, rfl⟩

theorem poll_footprint_refl (s : System) : poll_footprint s s :=
  ⟨_, _, _, _, _, _, _, rfl⟩

theorem poll_footprint_pollout (s s1 : System) (p : PollResult) (h : poll_footprint s s1) :
    poll_footprint s (after_pollout s1 p) := by
  obtain ⟨fb, ex, tw, dq, dev, qo, pub, rfl⟩ := h
  unfold after_pollout
  cases p.pollout with
  | none => exact ⟨_, _, _, _, _, _, _, rfl⟩
  | some i => exact ⟨_, _, _, _, _, _, _, rfl⟩

theorem dequeue_handler_loop_footprint (s s1 : System) (p : PollResult)
    (h : dequeue_handler_loop s p = Outcome.ok s1) : poll_footprint s s1 := by
  cases hdq : s.dq with
  | none =>
    rw [dequeue_handler_loop_no_thread s p hdq] at h
    rw [← Outcome.ok.inj h]; exact poll_footprint_refl s
  | some l =>
    cases hx : l.exit with
    | true =>
      rw [dequeue_handler_loop_exited s l p hdq hx] at h
      rw [← Outcome.ok.inj h]; exact poll_footprint_refl s
    | false =>
      cases hp : p.pollin with
      | none =>
        rw [dequeue_handler_loop_timeout s l p hdq hx hp] at h
        rw [← Outcome.ok.inj h]
        exact poll_footprint_pollout s s p (poll_footprint_refl s)
      | some d =>
        cases h1 : on_pollin s l d with
        | ok s2 =>
          rw [dequeue_handler_loop_of_pollin_ok s s2 l p d hdq hx hp h1] at h
          rw [← Outcome.ok.inj h]
          exact poll_footprint_pollout s s2 p (on_pollin_footprint s s2 l d h1)
        | fatal s2 =>
          rw [dequeue_handler_loop_running s l p hdq hx, hp] at h
          simp [h1] at h
        | waits t =>
          rw [dequeue_handler_loop_running s l p hdq hx, hp] at h
          simp [h1] at h

theorem write_handler_loop_footprint (s s1 : System) (h : write_handler_loop s = Outcome.ok s1) :
    write_footprint s s1 := by
  unfold write_handler_loop at h
  split at h
  · exact absurd h (by simp)
  · split at h
    · exact absurd h (by simp)
    · split at h
      · exact absurd h (by simp)
      · rw [← Outcome.ok.inj h]; exact ⟨_, _, _, rfl⟩
      · split at h
        · exact absurd h (by simp)
        · rw [← Outcome.ok.inj h]; exact ⟨_, _, _, rfl⟩

theorem close_after_dq_footprint (s s1 : System) (h : close_after_dq s = Outcome.ok s1) :
    close_footprint s s1 := by
  unfold close_after_dq at h
  split at h
  · exact absurd h (by simp)
  · split at h
    · rw [← Outcome.ok.inj h]; exact ⟨_, _, _, _, _, rfl⟩
    · split at h
      · exact absurd h (by simp)
      · rw [← Outcome.ok.inj h]; exact ⟨_, _, _, _, _, rfl⟩

theorem encoder_close_footprint (n : Nat) (s s1 : System)
    (h : encoder_close n s = Outcome.ok s1) : close_footprint s s1 := by
  unfold encoder_close at h
  split at h
  · split at h
    · rw [← Outcome.ok.inj h]; exact ⟨_, _, _, _, _, rfl⟩
    · rw [← Outcome.ok.inj h]; exact ⟨_, _, _, _, _, rfl⟩
  · split at h
    · split at h
      · exact absurd h (by simp)
      · rw [← Outcome.ok.inj h]; exact ⟨_, _, _, _, _, rfl⟩
    · rw [← Outcome.ok.inj h]; exact ⟨_, _, _, _, _, rfl⟩
  · split at h
    · exact absurd h (by simp)
    · split at h
      · obtain ⟨fb, op, dq, wr, pc, h2⟩ := close_after_dq_footprint _ s1 h
        rw [h2]; exact ⟨_, _, _, _, _, rfl⟩
      · exact absurd h (by simp)
  · split at h
    · exact absurd h (by simp)
    · split at h
      · simp only [] at h
        split at h
        · exact absurd h (by simp)
        · rw [← Outcome.ok.inj h]; exact ⟨_, _, _, _, _, rfl⟩
      · exact absurd h (by simp)

/-- What a completed `encode_frame` did. -/
theorem encode_frame_ok (s s1 : System) (w h : Int) (extra : VisionIpcBufExtra) (err : Int)
    (hs : encode_frame s w h extra err = Outcome.ok s1) :
    w = s.e.in_width_ ∧ h = s.e.in_height_ ∧ s.e.is_open = true ∧ err = 0 ∧
    ∃ buffer_in rest, s.e.free_buf_in = buffer_in :: rest ∧
      s1 = { s with
             e := { s.e with free_buf_in := rest, extras := s.e.extras ++ [extra],
                             counter := toInt32 (s.e.counter + 1) },
             dev_in := s.dev_in ++ [(buffer_in, encode_timestamp extra)],
             returned := s.returned ++ [s.e.counter] } := by
  unfold encode_frame at hs
  split at hs
  · exact absurd hs (by simp)
  · rename_i hw
    split at hs
    · exact absurd hs (by simp)
    · rename_i hh
      split at hs
      · exact absurd hs (by simp)
      · rename_i ho
        split at hs
        · exact absurd hs (by simp)
        · rename_i buffer_in rest hq
          split at hs
          · exact absurd hs (by simp)
          · rename_i he
            refine ⟨by simpa using hw, by simpa using hh, by simpa using ho,
              by simpa using he, buffer_in, rest, hq, ?_⟩
            rw [← Outcome.ok.inj hs]

/-- What a completed `encoder_open` did. -/
theorem encoder_open_ok (s s1 : System) (h : encoder_open s = Outcome.ok s1) :
    s.dq = none ∧
    s1 = { s with
           e := { s.e with segment_num := toInt32 (s.e.segment_num + 1), is_open := true,
                           counter := 0 },
           dq := some { idx := 4294967295, exit := false, header := [] },
           wr := if s.e.write then some { first := true, done := false } else s.wr } := by
  unfold encoder_open at h
  split at h
  · exact absurd h (by simp)
  · rename_i hdq
    split at h
    · exact absurd h (by simp)
    · refine ⟨by simpa using hdq, ?_⟩
      rw [← Outcome.ok.inj h]
      by_cases hw : s.e.write = true
      · simp [hw, dequeue_handler_entry]
      · simp [hw, dequeue_handler_entry]

/-! ## Executions -/

theorem run_cons_ok (n : Nat) (s s1 : System) (a : Action) (tr : List Action)
    (h : step n s a = Outcome.ok s1) : run n s (a :: tr) = run n s1 tr := by
  simp [run, h]

theorem run_cons_inv (n : Nat) (s s2 : System) (a : Action) (tr : List Action)
    (h : run n s (a :: tr) = Outcome.ok s2) :
    ∃ s1, step n s a = Outcome.ok s1 ∧ run n s1 tr = Outcome.ok s2 := by
  cases h1 : step n s a with
  | ok s1 => exact ⟨s1, rfl, by rw [run_cons_ok n s s1 a tr h1] at h; exact h⟩
  | fatal s1 => simp [run, h1] at h
  | waits t => simp [run, h1] at h

theorem run_append_inv (n : Nat) (t1 t2 : List Action) (s s2 : System)
    (h : run n s (t1 ++ t2) = Outcome.ok s2) :
    ∃ s1, run n s t1 = Outcome.ok s1 ∧ run n s1 t2 = Outcome.ok s2 := by
  induction t1 generalizing s with
  | nil => exact ⟨s, rfl, h⟩
  | cons a t1 ih =>
    obtain ⟨sa, h1, h2⟩ := run_cons_inv n s s2 a (t1 ++ t2) h
    obtain ⟨s1, h3, h4⟩ := ih sa h2
    exact ⟨s1, by rw [run_cons_ok n s sa a t1 h1]; exact h3, h4⟩

/-! ## C3 -/

theorem toInt32_idem (x : Int) : toInt32 (toInt32 x) = toInt32 x := by
  unfold toInt32; omega

theorem toInt32_succ (x : Int) (k : Nat) :
    toInt32 (toInt32 (x + 1) + (k : Int)) = toInt32 (x + ((k + 1 : Nat) : Int)) := by
  unfold toInt32; omega

/-- In an execution without `encoder_open`, the values returned by the `encode_frame`
calls are the successive values of the counter. -/
theorem returned_of_run (n : Nat) (tr : List Action) :
    ∀ (s s2 : System), Action.encoder_open ∉ tr → toInt32 s.e.counter = s.e.counter →
      run n s tr = Outcome.ok s2 →
      s2.returned = s.returned ++
        (List.range (submitted tr).length).map
          (fun (k : Nat) => toInt32 (s.e.counter + (k : Int))) := by
  induction tr with
  | nil =>
    intro s s2 _ _ h
    rw [← Outcome.ok.inj h]; simp [submitted]
  | cons a tr ih =>
    intro s s2 hno hc hr
    obtain ⟨s1, h1, h2⟩ := run_cons_inv n s s2 a tr hr
    have hno2 : Action.encoder_open ∉ tr := fun hm => hno (List.mem_cons_of_mem _ hm)
    cases a with
    | encoder_open => exact absurd (List.mem_cons_self _ _) hno
    | encode_frame w h extra err =>
      simp only [step] at h1
      split at h1
      · obtain ⟨_, _, _, _, b, rest, _, hs1⟩ := encode_frame_ok s s1 w h extra err h1
        have hc1 : s1.e.counter = toInt32 (s.e.counter + 1) := by rw [hs1]
        have hr1 : s1.returned = s.returned ++ [s.e.counter] := by rw [hs1]
        rw [ih s1 s2 hno2 (by rw [hc1, toInt32_idem]) h2, hr1, hc1]
        simp only [submitted, List.length_cons, List.range_succ_eq_map, List.map_cons,
          List.map_map, List.append_assoc, List.singleton_append]
        congr 1
        congr 1
        · simpa using hc.symm
        · apply List.map_congr_left
          intro k _
          simp only [Function.comp]
          exact toInt32_succ s.e.counter k
      · exact absurd h1 (by simp)
    | encoder_close =>
      obtain ⟨fb, op, dq, wr, pc, hs1⟩ := encoder_close_footprint n s s1 h1
      rw [ih s1 s2 hno2 (by rw [hs1]; exact hc) h2, hs1]
      rfl
    | poll p =>
      obtain ⟨fb, ex, tw, dq, dev, qo, pub, hs1⟩ := dequeue_handler_loop_footprint s s1 p h1
      rw [ih s1 s2 hno2 (by rw [hs1]; exact hc) h2, hs1]
      rfl
    | write_pop =>
      obtain ⟨tw, wr, ws, hs1⟩ := write_handler_loop_footprint s s1 h1
      rw [ih s1 s2 hno2 (by rw [hs1]; exact hc) h2, hs1]
      rfl

/-- C3, as the code has it: a completed `encode_frame` returns the value the counter
had before the call and leaves the counter one higher (`return this->counter++`); since
`encoder_open` resets the counter to zero, the values returned by the calls of one
session are 0, 1, 2, ... : for every `m >= 1` (up to `2^31`, where a C `int` ends) the
`m`-th call after `encoder_open` returns `m - 1`. -/
theorem C3_returns_value_before_increment (n : Nat) (s0 s2 : System) (tr : List Action)
    (hno : Action.encoder_open ∉ tr)
    (hrun : run n s0 (Action.encoder_open :: tr) = Outcome.ok s2) :
    (∀ (s s1 : System) (w h : Int) (extra : VisionIpcBufExtra) (err : Int),
      encode_frame s w h extra err = Outcome.ok s1 →
      s1.returned = s.returned ++ [s.e.counter] ∧
      s1.e.counter = toInt32 (s.e.counter + 1)) ∧
    s2.returned = s0.returned ++
      (List.range (submitted tr).length).map (fun (k : Nat) => toInt32 (k : Int)) ∧
    ∀ m : Nat, 1 ≤ m → m ≤ (submitted tr).length → m ≤ 2147483648 →
      s2.returned[s0.returned.length + (m - 1)]? = some ((m : Int) - 1) := by
  obtain ⟨s1, h1, h2⟩ := run_cons_inv n s0 s2 _ tr hrun
  simp only [step] at h1
  split at h1
  swap
  · exact absurd h1 (by simp)
  obtain ⟨_, hs1⟩ := encoder_open_ok s0 s1 h1
  have hc1 : s1.e.counter = 0 := by rw [hs1]
  have hr1 : s1.returned = s0.returned := by rw [hs1]
  have hret := returned_of_run n tr s1 s2 hno (by rw [hc1]; rfl) h2
  rw [hc1, hr1] at hret
  simp only [zero_add] at hret
  refine ⟨?_, hret, ?_⟩
  · intro s s1 w h extra err hs
    obtain ⟨_, _, _, _, b, rest, _, hs1⟩ := encode_frame_ok s s1 w h extra err hs
    rw [hs1]
    exact ⟨rfl, rfl⟩
  · intro m hm1 hm2 hm3
    rw [hret, List.getElem?_append_right (by omega)]
    have hidx : s0.returned.length + (m - 1) - s0.returned.length = m - 1 := by omega
    rw [hidx, List.getElem?_map, List.getElem?_range (by omega)]
    have hval : toInt32 (((m - 1 : Nat)) : Int) = (m : Int) - 1 := by
      unfold toInt32
      omega
    simp only [Option.map_some', hval]

theorem C3_returns_value_before_increment_witness :
    Action.encoder_open ∉ [Action.encode_frame 1928 1208 frame_a 0,
      Action.encode_frame 1928 1208 frame_b 0] ∧
    ∃ s2, run 7 fresh [Action.encoder_open, Action.encode_frame 1928 1208 frame_a 0,
        Action.encode_frame 1928 1208 frame_b 0] = Outcome.ok s2 ∧
      s2.returned[fresh.returned.length + (2 - 1)]? = some (((2 : Nat) : Int) - 1) :=
  ⟨by decide, _, rfl,
   (C3_returns_value_before_increment 7 fresh _
      [Action.encode_frame 1928 1208 frame_a 0, Action.encode_frame 1928 1208 frame_b 0]
      (by decide) rfl).2.2 2 (by decide) (by decide) (by decide)⟩

/-- C3 as stated fails: the first `encode_frame` after `encoder_open` returns 0, the
value of the counter before the increment, and not 1. -/
theorem C3_counterexample :
    ∃ s2, run 7 fresh [Action.encoder_open, Action.encode_frame 1928 1208 frame_a 0]
        = Outcome.ok s2 ∧
      s2.returned = [0] ∧ s2.e.counter = 1 :=
  ⟨_, rfl, by decide, by decide⟩

/-! ## The cases of a loop iteration -/

theorem on_pollin_eos_state (s : System) (l : DequeueLocals) (d : Dequeued)
    (hE : hasFlag d.flags V4L2_QCOM_BUF_FLAG_EOS = true) :
    on_pollin s l d = Outcome.ok (after_eos s l d) := by
  rw [on_pollin_eos s l d hE]
  unfold after_eos requeue_out
  by_cases hw : s.e.write = true
  · simp only [if_pos hw]
  · simp only [if_neg hw]

theorem on_pollin_config_state (s : System) (l : DequeueLocals) (d : Dequeued)
    (hE : hasFlag d.flags V4L2_QCOM_BUF_FLAG_EOS = false)
    (hC : hasFlag d.flags V4L2_QCOM_BUF_FLAG_CODECCONFIG = true) :
    on_pollin s l d = Outcome.ok (after_config s l d) := by
  rw [on_pollin_config s l d hE hC]
  rfl

theorem dequeue_handler_loop_cases (s s1 : System) (p : PollResult)
    (h : dequeue_handler_loop s p = Outcome.ok s1) : PollCase s p s1 := by
  cases hdq : s.dq with
  | none =>
    rw [dequeue_handler_loop_no_thread s p hdq] at h
    rw [← Outcome.ok.inj h]; exact PollCase.no_thread hdq
  | some l =>
    cases hx : l.exit with
    | true =>
      rw [dequeue_handler_loop_exited s l p hdq hx] at h
      rw [← Outcome.ok.inj h]; exact PollCase.exited l hdq hx
    | false =>
      cases hp : p.pollin with
      | none =>
        rw [dequeue_handler_loop_timeout s l p hdq hx hp] at h
        rw [← Outcome.ok.inj h]; exact PollCase.timeout l hdq hx hp
      | some d =>
        cases hE : hasFlag d.flags V4L2_QCOM_BUF_FLAG_EOS with
        | true =>
          rw [dequeue_handler_loop_of_pollin_ok s _ l p d hdq hx hp
            (on_pollin_eos_state s l d hE)] at h
          rw [← Outcome.ok.inj h]; exact PollCase.eos l d hdq hx hp hE
        | false =>
          cases hC : hasFlag d.flags V4L2_QCOM_BUF_FLAG_CODECCONFIG with
          | true =>
            rw [dequeue_handler_loop_of_pollin_ok s _ l p d hdq hx hp
              (on_pollin_config_state s l d hE hC)] at h
            rw [← Outcome.ok.inj h]; exact PollCase.config l d hdq hx hp hE hC
          | false =>
            cases hq : s.e.extras with
            | nil =>
              rw [dequeue_handler_loop_running s l p hdq hx, hp] at h
              simp [on_pollin_data_empty s l d hE hC hq] at h
            | cons extra rest =>
              cases hm : in_sync extra (completion_ts d.timestamp) with
              | false =>
                rw [dequeue_handler_loop_running s l p hdq hx, hp] at h
                simp [on_pollin_data_desync s l d extra rest hE hC hq hm] at h
              | true =>
                rw [dequeue_handler_loop_of_pollin_ok s _ l p d hdq hx hp
                  (on_pollin_data_sync s l d extra rest hE hC hq hm)] at h
                rw [← Outcome.ok.inj h]
                exact PollCase.data l d extra rest hdq hx hp hE hC hq hm

/-- A step of `encoder_close` leaves the dequeue thread as it is or joins it after its
loop has ended. -/
theorem encoder_close_dq (n : Nat) (s s1 : System) (h : encoder_close n s = Outcome.ok s1) :
    s1.dq = s.dq ∨ (s1.dq = none ∧ ∃ l, s.dq = some l ∧ l.exit = true) := by
  unfold encoder_close at h
  split at h
  · split at h
    · rw [← Outcome.ok.inj h]; exact Or.inl rfl
    · rw [← Outcome.ok.inj h]; exact Or.inl rfl
  · split at h
    · split at h
      · exact absurd h (by simp)
      · rw [← Outcome.ok.inj h]; exact Or.inl rfl
    · rw [← Outcome.ok.inj h]; exact Or.inl rfl
  · split at h
    · exact absurd h (by simp)
    · rename_i l hl
      split at h
      · rename_i hx
        obtain ⟨fb, op, dq, wr, pc, h2⟩ := close_after_dq_footprint _ s1 h
        right
        refine ⟨?_, l, hl, hx⟩
        unfold close_after_dq at h
        split at h
        · exact absurd h (by simp)
        · split at h
          · rw [← Outcome.ok.inj h]
          · split at h
            · exact absurd h (by simp)
            · rw [← Outcome.ok.inj h]
      · exact absurd h (by simp)
  · split at h
    · exact absurd h (by simp)
    · split at h
      · simp only [] at h
        split at h
        · exact absurd h (by simp)
        · rw [← Outcome.ok.inj h]; exact Or.inl rfl
      · exact absurd h (by simp)

theorem after_data_published (s : System) (l : DequeueLocals) (d : Dequeued)
    (extra : VisionIpcBufExtra) (rest : List VisionIpcBufExtra) :
    (after_data s l d extra rest).published = s.published ++ [data_packet s l d extra rest] :=
  rfl

/-! ## C7 -/

theorem numbered_quiet (s s1 : System) (pk : List EncodeData)
    (hseg : s1.e.segment_num = s.e.segment_num)
    (hdq : ∀ l1, s1.dq = some l1 → ∃ l, s.dq = some l ∧ l.idx = l1.idx)
    (h : numbered_from s1 pk) : numbered_from s pk := by
  intro k p hk
  obtain ⟨l1, h1, h2, h3, h4⟩ := h k p hk
  obtain ⟨l, h5, h6⟩ := hdq l1 h1
  exact ⟨l, h5, by rw [h6]; exact h2, h3, by rw [← hseg]; exact h4⟩

theorem numbered_data (s s1 : System) (l : DequeueLocals) (p0 : EncodeData)
    (pk : List EncodeData)
    (hseg : s1.e.segment_num = s.e.segment_num)
    (hl : s.dq = some l)
    (hdq : s1.dq = some { l with idx := (l.idx + 1) % 4294967296 })
    (hid : p0.encodeId = (l.idx + 1) % 4294967296) (hsid : p0.segmentId = p0.encodeId)
    (hsn : p0.segmentNum = s.e.segment_num)
    (h : numbered_from s1 pk) : numbered_from s (p0 :: pk) := by
  intro k p hk
  cases k with
  | zero =>
    simp only [List.getElem?_cons_zero, Option.some.injEq] at hk
    subst hk
    exact ⟨l, hl, by rw [hid], hsid, hsn⟩
  | succ k =>
    simp only [List.getElem?_cons_succ] at hk
    obtain ⟨l1, h1, h2, h3, h4⟩ := h k p hk
    rw [hdq] at h1
    have hl1 : l1.idx = (l.idx + 1) % 4294967296 := by
      rw [← Option.some.inj h1]
    refine ⟨l, hl, ?_, h3, by rw [← hseg]; exact h4⟩
    rw [h2, hl1]
    omega

theorem cycle_packets (n : Nat) (tr : List Action) :
    ∀ (s s2 : System), Action.encoder_open ∉ tr → run n s tr = Outcome.ok s2 →
      s2.e.segment_num = s.e.segment_num ∧
      ∃ pk, s2.published = s.published ++ pk ∧ numbered_from s pk := by
  induction tr with
  | nil =>
    intro s s2 _ h
    rw [← Outcome.ok.inj h]
    exact ⟨rfl, [], by simp, by intro k p hk; simp at hk⟩
  | cons a tr ih =>
    intro s s2 hno hr
    obtain ⟨s1, h1, h2⟩ := run_cons_inv n s s2 a tr hr
    have hno2 : Action.encoder_open ∉ tr := fun hm => hno (List.mem_cons_of_mem _ hm)
    obtain ⟨hseg2, pk, hpub2, hnum⟩ := ih s1 s2 hno2 h2
    have quiet : s1.e.segment_num = s.e.segment_num → s1.published = s.published →
        (∀ l1, s1.dq = some l1 → ∃ l, s.dq = some l ∧ l.idx = l1.idx) →
        s2.e.segment_num = s.e.segment_num ∧
          ∃ pk, s2.published = s.published ++ pk ∧ numbered_from s pk := by
      intro hseg hpub hdq
      exact ⟨by rw [hseg2, hseg], pk, by rw [hpub2, hpub],
        numbered_quiet s s1 pk hseg hdq hnum⟩
    cases a with
    | encoder_open => exact absurd (List.mem_cons_self _ _) hno
    | encode_frame w h extra err =>
      simp only [step] at h1
      split at h1
      · obtain ⟨_, _, _, _, b, rest, _, hs1⟩ := encode_frame_ok s s1 w h extra err h1
        apply quiet <;> rw [hs1]
        intro l1 hl1; exact ⟨l1, hl1, rfl⟩
      · exact absurd h1 (by simp)
    | encoder_close =>
      have hdq := encoder_close_dq n s s1 h1
      obtain ⟨fb, op, dq, wr, pc, hs1⟩ := encoder_close_footprint n s s1 h1
      apply quiet
      · rw [hs1]
      · rw [hs1]
      · intro l1 hl1
        rcases hdq with hdq | ⟨hdq, _⟩
        · exact ⟨l1, by rw [← hdq]; exact hl1, rfl⟩
        · rw [hdq] at hl1; exact absurd hl1 (by simp)
    | write_pop =>
      obtain ⟨tw, wr, ws, hs1⟩ := write_handler_loop_footprint s s1 h1
      apply quiet <;> rw [hs1]
      intro l1 hl1; exact ⟨l1, hl1, rfl⟩
    | poll p =>
      have hc := dequeue_handler_loop_cases s s1 p h1
      cases hc with
      | no_thread hdq =>
        apply quiet rfl rfl
        intro l1 hl1; exact ⟨l1, hl1, rfl⟩
      | exited l hdq hx =>
        apply quiet rfl rfl
        intro l1 hl1; exact ⟨l1, hl1, rfl⟩
      | timeout l hdq hx hp =>
        apply quiet (by simp) (by simp)
        intro l1 hl1; exact ⟨l1, by simpa using hl1, rfl⟩
      | eos l d hdq hx hp hE =>
        apply quiet (by simp [after_eos]) (by simp [after_eos])
        intro l1 hl1
        simp only [after_pollout_dq, after_eos, Option.some.injEq] at hl1
        exact ⟨l, hdq, by rw [← hl1]⟩
      | config l d hdq hx hp hE hC =>
        apply quiet (by simp [after_config]) (by simp [after_config])
        intro l1 hl1
        simp only [after_pollout_dq, after_config, Option.some.injEq] at hl1
        exact ⟨l, hdq, by rw [← hl1]⟩
      | data l d extra rest hdq hx hp hE hC hq hm =>
        have hseg : (after_pollout (after_data s l d extra rest) p).e.segment_num
            = s.e.segment_num := by simp [after_data]
        refine ⟨by rw [hseg2, hseg], data_packet s l d extra rest :: pk, ?_, ?_⟩
        · rw [hpub2]
          simp only [after_pollout_published, after_data_published, List.append_assoc,
            List.singleton_append]
        · exact numbered_data s _ l _ pk hseg hdq (by simp [after_data]) rfl rfl rfl hnum

theorem toInt32_in_range (x : Int) (h1 : -2147483648 ≤ x) (h2 : x < 2147483648) :
    toInt32 x = x := by
  unfold toInt32; omega

/-- C7: take two consecutive cycles on one encoder object, each an `encoder_open`
followed by any execution without a further `encoder_open` (so the first one contains
the whole `encoder_close`, the second may still be running).  The packets published in
a cycle carry, in the order of emission, the encode ids `k mod 2^32` for `k = 0, 1, 2,
...` (so `k` itself below `2^32`), whatever codec-config and end-of-stream buffers were
handled in between, and a segment id equal to the encode id; all packets of a cycle carry
the segment number that `encoder_open` set, and the segment number of the second cycle is
the one of the first cycle plus one (wrapped as a C `int`; exactly plus one while it
stays below `2^31`). -/
theorem C7_encode_ids_and_segment (n : Nat) (s s2 : System) (tr1 tr2 : List Action)
    (hno1 : Action.encoder_open ∉ tr1) (hno2 : Action.encoder_open ∉ tr2)
    (hrun : run n s (Action.encoder_open :: tr1 ++ Action.encoder_open :: tr2)
      = Outcome.ok s2) :
    ∃ pk1 pk2, s2.published = s.published ++ pk1 ++ pk2 ∧
      (∀ (k : Nat) (p : EncodeData), pk1[k]? = some p →
        p.encodeId = k % 4294967296 ∧ (k < 4294967296 → p.encodeId = k) ∧
        p.segmentId = p.encodeId ∧ p.segmentNum = toInt32 (s.e.segment_num + 1)) ∧
      (∀ (k : Nat) (p : EncodeData), pk2[k]? = some p →
        p.encodeId = k % 4294967296 ∧ (k < 4294967296 → p.encodeId = k) ∧
        p.segmentId = p.encodeId ∧
        p.segmentNum = toInt32 (toInt32 (s.e.segment_num + 1) + 1)) ∧
      (-2147483648 ≤ s.e.segment_num + 1 → s.e.segment_num + 2 < 2147483648 →
        toInt32 (toInt32 (s.e.segment_num + 1) + 1) = toInt32 (s.e.segment_num + 1) + 1) := by
  have key : ∀ (sa sb sc : System) (tr : List Action), Action.encoder_open ∉ tr →
      step n sa Action.encoder_open = Outcome.ok sb → run n sb tr = Outcome.ok sc →
      sc.e.segment_num = toInt32 (sa.e.segment_num + 1) ∧
      ∃ pk, sc.published = sa.published ++ pk ∧
        ∀ (k : Nat) (p : EncodeData), pk[k]? = some p →
          p.encodeId = k % 4294967296 ∧ (k < 4294967296 → p.encodeId = k) ∧
          p.segmentId = p.encodeId ∧ p.segmentNum = toInt32 (sa.e.segment_num + 1) := by
    intro sa sb sc tr hno hopen hr
    simp only [step] at hopen
    split at hopen
    swap
    · exact absurd hopen (by simp)
    obtain ⟨_, hsb⟩ := encoder_open_ok sa sb hopen
    have hseg : sb.e.segment_num = toInt32 (sa.e.segment_num + 1) := by rw [hsb]
    have hpub : sb.published = sa.published := by rw [hsb]
    have hdq : sb.dq = some { idx := 4294967295, exit := false, header := [] } := by rw [hsb]
    obtain ⟨h1, pk, h2, h3⟩ := cycle_packets n tr sb sc hno hr
    refine ⟨by rw [h1, hseg], pk, by rw [h2, hpub], ?_⟩
    intro k p hk
    obtain ⟨l, hl, hid, hsid, hsn⟩ := h3 k p hk
    rw [hdq] at hl
    have hidx : l.idx = 4294967295 := by rw [← Option.some.inj hl]
    have hid2 : p.encodeId = k % 4294967296 := by rw [hid, hidx]; omega
    exact ⟨hid2, fun hk2 => by rw [hid2]; omega, hsid, by rw [hsn, hseg]⟩
  obtain ⟨sa, hopen1, hr1⟩ := run_cons_inv n s s2 _ _ hrun
  obtain ⟨sb, hr2, hr3⟩ := run_append_inv n tr1 _ sa s2 hr1
  obtain ⟨sc, hopen2, hr4⟩ := run_cons_inv n sb s2 _ _ hr3
  obtain ⟨hsegb, pk1, hpub1, hnum1⟩ := key s sa sb tr1 hno1 hopen1 hr2
  obtain ⟨_, pk2, hpub2, hnum2⟩ := key sb sc s2 tr2 hno2 hopen2 hr4
  refine ⟨pk1, pk2, by rw [hpub2, hpub1], hnum1, ?_, ?_⟩
  · intro k p hk
    have := hnum2 k p hk
    rw [hsegb] at this
    exact this
  · intro h1 h2
    rw [toInt32_in_range (s.e.segment_num + 1) h1 (by omega)]
    exact toInt32_in_range _ (by omega) (by omega)

theorem C7_encode_ids_and_segment_witness :
    Action.encoder_open ∉ session ∧
    ∃ s2, run 7 fresh (Action.encoder_open :: session ++ Action.encoder_open :: session)
        = Outcome.ok s2 ∧
      s2.published.map (fun p => (p.encodeId, p.segmentNum)) = [(0, 0), (1, 0), (0, 1), (1, 1)] ∧
      ∃ pk1 pk2, s2.published = fresh.published ++ pk1 ++ pk2 ∧
        (∀ (k : Nat) (p : EncodeData), pk1[k]? = some p →
          p.encodeId = k % 4294967296 ∧ (k < 4294967296 → p.encodeId = k) ∧
          p.segmentId = p.encodeId ∧ p.segmentNum = toInt32 (fresh.e.segment_num + 1)) ∧
        (∀ (k : Nat) (p : EncodeData), pk2[k]? = some p →
          p.encodeId = k % 4294967296 ∧ (k < 4294967296 → p.encodeId = k) ∧
          p.segmentId = p.encodeId ∧
          p.segmentNum = toInt32 (toInt32 (fresh.e.segment_num + 1) + 1)) ∧
        (-2147483648 ≤ fresh.e.segment_num + 1 → fresh.e.segment_num + 2 < 2147483648 →
          toInt32 (toInt32 (fresh.e.segment_num + 1) + 1)
            = toInt32 (fresh.e.segment_num + 1) + 1) :=
  ⟨by decide, _, rfl, by decide,
   C7_encode_ids_and_segment 7 fresh _ session session (by decide) (by decide) rfl⟩

/-! ## C9 -/

/-- Once the dequeue loop has ended, nothing is published until the next
`encoder_open`. -/
theorem quiet_after_exit (n : Nat) (tr : List Action) :
    ∀ (s s2 : System), (s.dq = none ∨ ∃ l, s.dq = some l ∧ l.exit = true) →
      Action.encoder_open ∉ tr → run n s tr = Outcome.ok s2 →
      s2.published = s.published := by
  induction tr with
  | nil => intro s s2 _ _ h; rw [← Outcome.ok.inj h]
  | cons a tr ih =>
    intro s s2 hq hno hr
    obtain ⟨s1, h1, h2⟩ := run_cons_inv n s s2 a tr hr
    have hno2 : Action.encoder_open ∉ tr := fun hm => hno (List.mem_cons_of_mem _ hm)
    cases a with
    | encoder_open => exact absurd (List.mem_cons_self _ _) hno
    | encode_frame w h extra err =>
      simp only [step] at h1
      split at h1
      · obtain ⟨_, _, _, _, b, rest, _, hs1⟩ := encode_frame_ok s s1 w h extra err h1
        rw [ih s1 s2 (by rw [hs1]; exact hq) hno2 h2, hs1]
      · exact absurd h1 (by simp)
    | encoder_close =>
      have hdq := encoder_close_dq n s s1 h1
      obtain ⟨fb, op, dq, wr, pc, hs1⟩ := encoder_close_footprint n s s1 h1
      have hq1 : s1.dq = none ∨ ∃ l, s1.dq = some l ∧ l.exit = true := by
        rcases hdq with hdq | ⟨hdq, _⟩
        · rw [hdq]; exact hq
        · exact Or.inl hdq
      rw [ih s1 s2 hq1 hno2 h2, hs1]
    | write_pop =>
      obtain ⟨tw, wr, ws, hs1⟩ := write_handler_loop_footprint s s1 h1
      rw [ih s1 s2 (by rw [hs1]; exact hq) hno2 h2, hs1]
    | poll p =>
      have hs1 : s1 = s := by
        rcases hq with hq | ⟨l, hl, hx⟩
        · have := dequeue_handler_loop_no_thread s p hq
          simp only [step] at h1
          rw [this] at h1
          exact (Outcome.ok.inj h1).symm
        · have := dequeue_handler_loop_exited s l p hl hx
          simp only [step] at h1
          rw [this] at h1
          exact (Outcome.ok.inj h1).symm
      rw [hs1] at h2
      exact ih s s2 hq hno2 h2

theorem headers_of_run (n : Nat) (tr : List Action) :
    ∀ (s s2 : System) (l : DequeueLocals), s.dq = some l → l.exit = false →
      Action.encoder_open ∉ tr → run n s tr = Outcome.ok s2 →
      ∃ pk, s2.published = s.published ++ pk ∧
        pk.map (fun p => (p.flags, p.header)) = expected_headers l.header tr := by
  induction tr with
  | nil =>
    intro s s2 l _ _ _ h
    rw [← Outcome.ok.inj h]
    exact ⟨[], by simp, rfl⟩
  | cons a tr ih =>
    intro s s2 l hl hx hno hr
    obtain ⟨s1, h1, h2⟩ := run_cons_inv n s s2 a tr hr
    have hno2 : Action.encoder_open ∉ tr := fun hm => hno (List.mem_cons_of_mem _ hm)
    cases a with
    | encoder_open => exact absurd (List.mem_cons_self _ _) hno
    | encode_frame w h extra err =>
      simp only [step] at h1
      split at h1
      · obtain ⟨_, _, _, _, b, rest, _, hs1⟩ := encode_frame_ok s s1 w h extra err h1
        obtain ⟨pk, hp1, hp2⟩ := ih s1 s2 l (by rw [hs1]; exact hl) hx hno2 h2
        exact ⟨pk, by rw [hp1, hs1], hp2⟩
      · exact absurd h1 (by simp)
    | encoder_close =>
      have hdq := encoder_close_dq n s s1 h1
      obtain ⟨fb, op, dq, wr, pc, hs1⟩ := encoder_close_footprint n s s1 h1
      have hl1 : s1.dq = some l := by
        rcases hdq with hdq | ⟨_, l2, hl2, hx2⟩
        · rw [hdq]; exact hl
        · rw [hl] at hl2
          rw [Option.some.inj hl2, hx2] at hx
          exact absurd hx (by simp)
      obtain ⟨pk, hp1, hp2⟩ := ih s1 s2 l hl1 hx hno2 h2
      exact ⟨pk, by rw [hp1, hs1], hp2⟩
    | write_pop =>
      obtain ⟨tw, wr, ws, hs1⟩ := write_handler_loop_footprint s s1 h1
      obtain ⟨pk, hp1, hp2⟩ := ih s1 s2 l (by rw [hs1]; exact hl) hx hno2 h2
      exact ⟨pk, by rw [hp1, hs1], hp2⟩
    | poll p =>
      have hc := dequeue_handler_loop_cases s s1 p h1
      cases hc with
      | no_thread hdq => rw [hdq] at hl; exact absurd hl (by simp)
      | exited l2 hdq hx2 =>
        rw [hl] at hdq
        rw [← Option.some.inj hdq, hx] at hx2
        exact absurd hx2 (by simp)
      | timeout l2 hdq hx2 hp =>
        obtain ⟨pk, hp1, hp2⟩ := ih _ s2 l (by simpa using hl) hx hno2 h2
        exact ⟨pk, by simpa using hp1, by simp only [expected_headers, hp]; exact hp2⟩
      | eos l2 d hdq hx2 hp hE =>
        have hq := quiet_after_exit n tr _ s2
          (Or.inr ⟨{ l2 with exit := true }, by simp [after_eos], rfl⟩) hno2 h2
        refine ⟨[], ?_, by simp [expected_headers, hp, hE]⟩
        rw [hq]
        simp [after_eos]
      | config l2 d hdq hx2 hp hE hC =>
        rw [hl] at hdq
        have hll : l2 = l := (Option.some.inj hdq).symm
        subst hll
        obtain ⟨pk, hp1, hp2⟩ := ih _ s2 { l2 with header := d.buf.take d.bytesused }
          (by simp [after_config]) hx hno2 h2
        refine ⟨pk, by simpa [after_config] using hp1, ?_⟩
        simp only [expected_headers, hp, hE, hC]
        simpa using hp2
      | data l2 d extra rest hdq hx2 hp hE hC hq hm =>
        rw [hl] at hdq
        have hll : l2 = l := (Option.some.inj hdq).symm
        subst hll
        obtain ⟨pk, hp1, hp2⟩ := ih _ s2 { l2 with idx := (l2.idx + 1) % 4294967296 }
          (by simp [after_data]) hx hno2 h2
        refine ⟨data_packet s l2 d extra rest :: pk, ?_, ?_⟩
        · rw [hp1]
          simp only [after_pollout_published, after_data_published, List.append_assoc,
            List.singleton_append]
        · simp only [expected_headers, hp, hE, hC, List.map_cons]
          rw [hp2]
          simp [data_packet, build_packet]

/-- C9: (1) when the dequeue loop handles a codec-config buffer, the iteration
completes, publishes nothing, pops nothing from `extras`, replaces the cached header by
the `bytesused` first bytes of that buffer and queues the capture buffer to the device
again; (2) over any execution of a running dequeue loop (no further `encoder_open`),
the published packets carry, in order, the flags of the data buffers handled and as
header the bytes of the most recent codec-config buffer handled before them (the cache
`l.header` the loop started from if there was none) when their keyframe flag is set, and
no header bytes when it is not. -/
theorem C9_cached_header (n : Nat) (s s2 : System) (l : DequeueLocals) (tr : List Action)
    (hdq : s.dq = some l) (hx : l.exit = false)
    (hno : Action.encoder_open ∉ tr) (hrun : run n s tr = Outcome.ok s2) :
    (∀ (t : System) (lt : DequeueLocals) (p : PollResult) (d : Dequeued),
      t.dq = some lt → lt.exit = false → p.pollin = some d →
      hasFlag d.flags V4L2_QCOM_BUF_FLAG_EOS = false →
      hasFlag d.flags V4L2_QCOM_BUF_FLAG_CODECCONFIG = true →
      ∃ t1, step n t (Action.poll p) = Outcome.ok t1 ∧
        t1.published = t.published ∧ t1.e.extras = t.e.extras ∧
        t1.dq = some { lt with header := d.buf.take d.bytesused } ∧
        t1.queued_out = t.queued_out ++ [d.index]) ∧
    ∃ pk, s2.published = s.published ++ pk ∧
      pk.map (fun p => (p.flags, p.header)) = expected_headers l.header tr ∧
      ∀ p ∈ pk, hasFlag p.flags V4L2_BUF_FLAG_KEYFRAME = false → p.header = [] := by
  constructor
  · intro t lt p d ht hlt hp hE hC
    refine ⟨_, dequeue_handler_loop_of_pollin_ok t _ lt p d ht hlt hp
      (on_pollin_config_state t lt d hE hC), ?_, ?_, ?_, ?_⟩ <;> simp [after_config]
  · obtain ⟨pk, h1, h2⟩ := headers_of_run n tr s s2 l hdq hx hno hrun
    refine ⟨pk, h1, h2, ?_⟩
    have hexp : ∀ (tr : List Action) (c : Bytes) (x : Nat × Bytes),
        x ∈ expected_headers c tr → hasFlag x.1 V4L2_BUF_FLAG_KEYFRAME = false →
        x.2 = [] := by
      intro tr
      induction tr with
      | nil => intro c x hx; simp [expected_headers] at hx
      | cons a tr ih =>
        intro c x hx hk
        cases a with
        | encoder_open => exact ih c x hx hk
        | encode_frame w h extra err => exact ih c x hx hk
        | encoder_close => exact ih c x hx hk
        | write_pop => exact ih c x hx hk
        | poll p =>
          simp only [expected_headers] at hx
          split at hx
          · exact ih c x hx hk
          · split at hx
            · simp at hx
            · split at hx
              · exact ih _ x hx hk
              · rcases List.mem_cons.1 hx with hx | hx
                · rw [hx] at hk ⊢
                  simp only at hk ⊢
                  rw [hk]
                  rfl
                · exact ih c x hx hk
    intro p hp hk
    have hmem : (p.flags, p.header) ∈ expected_headers l.header tr := by
      rw [← h2]
      exact List.mem_map.2 ⟨p, hp, rfl⟩
    exact hexp tr l.header _ hmem hk

theorem C9_cached_header_witness :
    Action.encoder_open ∉ session ∧
    ∃ s2, run 7 opened session = Outcome.ok s2 ∧
      ∃ pk, s2.published = opened.published ++ pk ∧
        pk.map (fun p => (p.flags, p.header)) = [(8, [103, 66]), (0, [])] ∧
        ∀ p ∈ pk, hasFlag p.flags V4L2_BUF_FLAG_KEYFRAME = false → p.header = [] :=
  ⟨by decide, _, rfl,
   (C9_cached_header 7 opened _ { idx := 4294967295, exit := false, header := [] } session
      rfl rfl (by decide) rfl).2⟩

/-! ## C1 -/

theorem pool_ok_take (n b : Nat) (rest infl : List Nat)
    (h : pool_ok n (b :: rest) infl CallerPc.idle) :
    pool_ok n rest (infl ++ [b]) CallerPc.idle := by
  obtain ⟨h1, h2, h3⟩ := h
  have hperm : List.Perm (rest ++ (infl ++ [b])) (b :: rest ++ infl) := by
    rw [← List.append_assoc]
    exact List.perm_append_comm.trans (by simp)
  refine ⟨hperm.nodup_iff.2 h1, ?_, ?_⟩
  · intro i hi
    exact h2 i (hperm.mem_iff.1 hi)
  · simp only [List.length_cons, List.length_append, List.length_singleton,
        List.length_nil] at h3 ⊢
    omega

theorem pool_ok_release (n i : Nat) (free infl : List Nat) (pc : CallerPc)
    (h : pool_ok n free infl pc) (hi : i ∈ infl) :
    pool_ok n (free ++ [i]) (infl.filter (fun x => x != i)) pc := by
  obtain ⟨h1, h2, h3⟩ := h
  have hnd : infl.Nodup := (List.nodup_append.1 h1).2.1
  have hfe : infl.filter (fun x => x != i) = infl.erase i := (hnd.erase_eq_filter i).symm
  rw [hfe]
  have hperm : List.Perm (free ++ [i] ++ infl.erase i) (free ++ infl) := by
    rw [List.append_assoc]
    exact List.Perm.append_left free (List.perm_cons_erase hi).symm
  have hlen : (infl.erase i).length + 1 = infl.length := by
    rw [List.length_erase_of_mem hi]
    have : 0 < infl.length := List.length_pos_of_mem hi
    omega
  refine ⟨hperm.nodup_iff.2 h1, ?_, ?_⟩
  · intro j hj
    exact h2 j (hperm.mem_iff.1 hj)
  · cases pc with
    | idle =>
      simp only [List.length_cons, List.length_append, List.length_singleton,
        List.length_nil] at h3 ⊢
      omega
    | close_pop k =>
      simp only [List.length_cons, List.length_append, List.length_singleton,
        List.length_nil] at h3 ⊢
      omega
    | close_join_dq => rw [h3.2] at hi; simp at hi
    | close_join_wr => rw [h3.2] at hi; simp at hi

theorem pool_ok_enter (n : Nat) (free infl : List Nat)
    (h : pool_ok n free infl CallerPc.idle) : pool_ok n free infl (CallerPc.close_pop 0) := by
  obtain ⟨h1, h2, h3⟩ := h
  exact ⟨h1, h2, by simpa using h3⟩

theorem pool_ok_pop (n b i : Nat) (rest infl : List Nat)
    (h : pool_ok n (b :: rest) infl (CallerPc.close_pop i)) :
    pool_ok n rest infl (CallerPc.close_pop (i + 1)) := by
  obtain ⟨h1, h2, h3⟩ := h
  refine ⟨(List.nodup_cons.1 h1).2, ?_, ?_⟩
  · intro j hj
    exact h2 j (List.mem_cons_of_mem _ hj)
  · simp only [List.length_cons] at h3 ⊢
    omega

theorem pool_ok_refill (n i : Nat) (free infl : List Nat)
    (h : pool_ok n free infl (CallerPc.close_pop i)) (hi : ¬ i < n) :
    pool_ok n (free ++ List.range n) infl CallerPc.close_join_dq := by
  obtain ⟨_, _, h3⟩ := h
  have hlen : free.length + infl.length + i = n := h3
  have hf0 : free.length = 0 := by omega
  have hd0 : infl.length = 0 := by omega
  have hf : free = [] := List.length_eq_zero.1 hf0
  have hd : infl = [] := List.length_eq_zero.1 hd0
  subst hf hd
  refine ⟨by simpa using List.nodup_range n, ?_, by simp⟩
  intro j hj
  simpa using hj

theorem pool_ok_joined (n : Nat) (free infl : List Nat) (pc : CallerPc)
    (h : pool_ok n free infl pc)
    (hpc : pc = CallerPc.close_join_dq ∨ pc = CallerPc.close_join_wr) :
    free = List.range n ∧ infl = [] ∧ pool_ok n free infl CallerPc.close_join_wr ∧
      pool_ok n free infl CallerPc.idle := by
  obtain ⟨h1, h2, h3⟩ := h
  have h4 : free = List.range n ∧ infl = [] := by
    rcases hpc with hpc | hpc <;> (subst hpc; exact h3)
  refine ⟨h4.1, h4.2, ⟨h1, h2, h4⟩, h1, h2, ?_⟩
  rw [h4.1, h4.2]
  simp

theorem in_flight_filter (s : System) (i : Nat) :
    (s.dev_in.filter (fun b => b.1 != i)).map Prod.fst
      = (in_flight s).filter (fun x => x != i) := by
  unfold in_flight
  rw [List.filter_map]
  rfl

/-- What a loop iteration of `dequeue_handler` does to the buffer pool. -/
theorem dequeue_handler_loop_pool (s s1 : System) (p : PollResult)
    (h : dequeue_handler_loop s p = Outcome.ok s1) :
    s1.caller = s.caller ∧ (s.e.extras = [] → s1.e.extras = []) ∧
    ((s1.e.free_buf_in = s.e.free_buf_in ∧ s1.dev_in = s.dev_in) ∨
      ∃ i, p.pollout = some i ∧ s1.e.free_buf_in = s.e.free_buf_in ++ [i] ∧
        s1.dev_in = s.dev_in.filter (fun b => b.1 != i)) := by
  have key : ∀ t : System, t.caller = s.caller → t.e.free_buf_in = s.e.free_buf_in →
      t.dev_in = s.dev_in → (s.e.extras = [] → t.e.extras = []) →
      (after_pollout t p).caller = s.caller ∧
      (s.e.extras = [] → (after_pollout t p).e.extras = []) ∧
      (((after_pollout t p).e.free_buf_in = s.e.free_buf_in ∧
          (after_pollout t p).dev_in = s.dev_in) ∨
        ∃ i, p.pollout = some i ∧ (after_pollout t p).e.free_buf_in = s.e.free_buf_in ++ [i] ∧
          (after_pollout t p).dev_in = s.dev_in.filter (fun b => b.1 != i)) := by
    intro t h1 h2 h3 h4
    refine ⟨by simpa using h1, by simpa using h4, ?_⟩
    unfold after_pollout
    cases hp : p.pollout with
    | none => exact Or.inl ⟨h2, h3⟩
    | some i =>
      right
      exact ⟨i, rfl, by simp [on_pollout, h2], by simp [on_pollout, h3]⟩
  have hc := dequeue_handler_loop_cases s s1 p h
  cases hc with
  | no_thread _ => exact ⟨rfl, id, Or.inl ⟨rfl, rfl⟩⟩
  | exited l _ _ => exact ⟨rfl, id, Or.inl ⟨rfl, rfl⟩⟩
  | timeout l _ _ _ => exact key s rfl rfl rfl id
  | eos l d _ _ _ _ => exact key _ rfl rfl rfl id
  | config l d _ _ _ _ _ => exact key _ rfl rfl rfl id
  | data l d extra rest _ _ _ _ _ hq _ =>
    exact key _ rfl rfl rfl (fun h0 => by rw [hq] at h0; exact absurd h0 (by simp))

/-- Every completed action preserves the invariant of the session state. -/
theorem session_inv_step (n : Nat) (s s1 : System) (a : Action) (hinv : session_inv n s)
    (hdev : releases_held s a = true) (h : step n s a = Outcome.ok s1) :
    session_inv n s1 := by
  obtain ⟨hpool, hext⟩ := hinv
  cases a with
  | encoder_open =>
    simp only [step] at h
    split at h
    swap
    · exact absurd h (by simp)
    obtain ⟨_, hs1⟩ := encoder_open_ok s s1 h
    rw [hs1]
    exact ⟨hpool, hext⟩
  | encode_frame w hh extra err =>
    simp only [step] at h
    split at h
    swap
    · exact absurd h (by simp)
    rename_i hidle
    obtain ⟨_, _, _, _, b, rest, hfree, hs1⟩ := encode_frame_ok s s1 w hh extra err h
    have hcal : s1.caller = CallerPc.idle := by rw [hs1]; exact hidle
    have hfr : s1.e.free_buf_in = rest := by rw [hs1]
    have hfl : in_flight s1 = in_flight s ++ [b] := by rw [hs1]; simp [in_flight]
    refine ⟨?_, by intro hc; rw [hcal] at hc; exact absurd hc (by simp)⟩
    rw [hcal, hfr, hfl]
    rw [hidle, hfree] at hpool
    exact pool_ok_take n b rest _ hpool
  | write_pop =>
    obtain ⟨tw, wr, ws, hs1⟩ := write_handler_loop_footprint s s1 h
    rw [hs1]
    exact ⟨hpool, hext⟩
  | poll p =>
    obtain ⟨hcal, hex, hcase⟩ := dequeue_handler_loop_pool s s1 p h
    refine ⟨?_, by intro hc; rw [hcal] at hc; exact hex (hext hc)⟩
    rcases hcase with ⟨hf, hd⟩ | ⟨i, hp, hf, hd⟩
    · unfold in_flight
      rw [hcal, hf, hd]
      exact hpool
    · have hi : i ∈ in_flight s := by simpa [releases_held, hp] using hdev
      have hfl : in_flight s1 = (in_flight s).filter (fun x => x != i) := by
        unfold in_flight
        rw [hd]
        exact in_flight_filter s i
      rw [hcal, hf, hfl]
      exact pool_ok_release n i _ _ _ hpool hi
  | encoder_close =>
    simp only [step] at h
    unfold encoder_close at h
    split at h
    · rename_i hidle
      split at h
      · rw [← Outcome.ok.inj h]
        rw [hidle] at hpool
        exact ⟨pool_ok_enter n _ _ hpool, by intro hc; exact absurd hc (by simp)⟩
      · rw [← Outcome.ok.inj h]
        exact ⟨hpool, hext⟩
    · rename_i i hpc
      rw [hpc] at hpool
      split at h
      · split at h
        · exact absurd h (by simp)
        · rename_i b rest hfree
          rw [← Outcome.ok.inj h]
          rw [hfree] at hpool
          exact ⟨pool_ok_pop n b i rest _ hpool, by intro hc; exact absurd hc (by simp)⟩
      · rename_i hi
        rw [← Outcome.ok.inj h]
        exact ⟨pool_ok_refill n i _ _ hpool hi, by intro hc; exact absurd hc (by simp)⟩
    · rename_i hpc
      obtain ⟨_, _, hwr, hidle⟩ := pool_ok_joined n _ _ _ hpool (Or.inl hpc)
      split at h
      · exact absurd h (by simp)
      · split at h
        · unfold close_after_dq at h
          split at h
          · exact absurd h (by simp)
          · rename_i hemp
            split at h
            · rw [← Outcome.ok.inj h]
              exact ⟨hwr, by intro _; simpa using hemp⟩
            · split at h
              · exact absurd h (by simp)
              · rw [← Outcome.ok.inj h]
                exact ⟨hidle, by intro hc; exact absurd hc (by simp)⟩
        · exact absurd h (by simp)
    · rename_i hpc
      obtain ⟨_, _, hwr, hidle⟩ := pool_ok_joined n _ _ _ hpool (Or.inr hpc)
      split at h
      · exact absurd h (by simp)
      · split at h
        · simp only [] at h
          split at h
          · exact absurd h (by simp)
          · rw [← Outcome.ok.inj h]
            exact ⟨hidle, by intro hc; exact absurd hc (by simp)⟩
        · exact absurd h (by simp)

theorem session_inv_construct (n m : Nat) (w h : Int) (h265 write o : Bool) (c sg : Int) :
    session_inv n (V4LEncoder.construct n m w h h265 write o c sg) := by
  refine ⟨⟨?_, ?_, ?_⟩, by intro hc; exact absurd hc (by simp [V4LEncoder.construct])⟩
  · simpa [V4LEncoder.construct, in_flight] using List.nodup_range n
  · intro i hi
    simpa [V4LEncoder.construct, in_flight] using hi
  · simp [V4LEncoder.construct, in_flight]

theorem session_inv_reachable (n : Nat) (s0 s : System) (h0 : session_inv n s0)
    (hr : Reachable n s0 s) : session_inv n s := by
  induction hr with
  | start => exact h0
  | next s s1 a _ hdev hstep ih => exact session_inv_step n s s1 a ih hdev hstep

/-! ## C8 -/

/-- C8: in every state the encoder object reaches from its constructor through
`encoder_open`, `encode_frame`, the steps of `encoder_close` and the iterations of the
worker loops, with input-released events only for indices the device holds, no index is
both in `free_buf_in` and in flight at the device, no index appears twice in
`free_buf_in` nor twice in flight, and every index in either is below `BUF_IN_COUNT`.
(Inside an action an index in transit, popped and not yet queued or dequeued and not yet
pushed, is in neither list.) -/
theorem C8_exclusive_ownership (n m : Nat) (w h : Int) (h265 write o : Bool) (c sg : Int)
    (s : System) (hr : Reachable n (V4LEncoder.construct n m w h h265 write o c sg) s) :
    (∀ i, ¬ (i ∈ s.e.free_buf_in ∧ i ∈ in_flight s)) ∧
    s.e.free_buf_in.Nodup ∧ (in_flight s).Nodup ∧
    (∀ i ∈ s.e.free_buf_in ++ in_flight s, i < n) := by
  obtain ⟨⟨h1, h2, _⟩, _⟩ := session_inv_reachable n _ s
    (session_inv_construct n m w h h265 write o c sg) hr
  obtain ⟨h3, h4, h5⟩ := List.nodup_append.1 h1
  exact ⟨fun i hi => h5 hi.1 hi.2, h3, h4, h2⟩

theorem reachable_one_in_flight : Reachable 7 fresh one_in_flight :=
  Reachable.next opened one_in_flight (Action.encode_frame 1928 1208 frame_a 0)
    (Reachable.next fresh opened Action.encoder_open Reachable.start rfl open_fresh)
    rfl (by decide)

theorem C8_exclusive_ownership_witness :
    Reachable 7 fresh one_in_flight ∧
    one_in_flight.e.free_buf_in = [1, 2, 3, 4, 5, 6] ∧ in_flight one_in_flight = [0] ∧
    (∀ i, ¬ (i ∈ one_in_flight.e.free_buf_in ∧ i ∈ in_flight one_in_flight)) ∧
    one_in_flight.e.free_buf_in.Nodup ∧ (in_flight one_in_flight).Nodup ∧
    (∀ i ∈ one_in_flight.e.free_buf_in ++ in_flight one_in_flight, i < 7) :=
  ⟨reachable_one_in_flight, by decide, by decide,
   C8_exclusive_ownership 7 6 1928 1208 true true false 0 (-1) one_in_flight
     reachable_one_in_flight⟩

/-! ## C6 -/

/-- The step with which `encoder_close` returns from a join. -/
theorem encoder_close_returns (n : Nat) (s s1 : System)
    (hjoin : s.caller = CallerPc.close_join_dq ∨ s.caller = CallerPc.close_join_wr)
    (h : encoder_close n s = Outcome.ok s1) (hret : s1.caller = CallerPc.idle) :
    s1.e.free_buf_in = s.e.free_buf_in ∧ s1.dev_in = s.dev_in ∧
    s1.e.extras = s.e.extras ∧ (s.caller = CallerPc.close_join_dq → s.e.extras = []) ∧
    s1.e.is_open = false ∧ s1.e.to_write = [] := by
  unfold encoder_close at h
  split at h
  · rename_i hidle
    rcases hjoin with hj | hj <;> (rw [hidle] at hj; exact absurd hj (by simp))
  · rename_i i hpc
    rcases hjoin with hj | hj <;> (rw [hpc] at hj; exact absurd hj (by simp))
  · split at h
    · exact absurd h (by simp)
    · split at h
      · unfold close_after_dq at h
        split at h
        · exact absurd h (by simp)
        · rename_i hemp
          split at h
          · rw [← Outcome.ok.inj h] at hret
            exact absurd hret (by simp)
          · split at h
            · exact absurd h (by simp)
            · rename_i htw
              rw [← Outcome.ok.inj h]
              exact ⟨rfl, rfl, rfl, by intro _; simpa using hemp, rfl, by simpa using htw⟩
      · exact absurd h (by simp)
  · rename_i hpc
    split at h
    · exact absurd h (by simp)
    · split at h
      · simp only [] at h
        split at h
        · exact absurd h (by simp)
        · rename_i htw
          rw [← Outcome.ok.inj h]
          exact ⟨rfl, rfl, rfl, by intro hc; rw [hpc] at hc; exact absurd hc (by simp), rfl,
            by simpa using htw⟩
      · exact absurd h (by simp)

/-- C6: take any state the encoder object reaches from its constructor, with a device
that releases only input buffers it holds (each submitted buffer once), in which
`encoder_close` stands at one of its joins, and let the step that ends `encoder_close`
complete.  Then `free_buf_in` is exactly `0, 1, ..., BUF_IN_COUNT-1`: it holds
`BUF_IN_COUNT` indices, each index below `BUF_IN_COUNT` exactly once; the device holds
no input buffer; and `extras` is empty (line 385 asserts it, so the call returns only
when every submitted frame had its data completion). -/
theorem C6_pool_restored_after_close (n m : Nat) (w h : Int) (h265 write o : Bool)
    (c sg : Int) (s s1 : System)
    (hr : Reachable n (V4LEncoder.construct n m w h h265 write o c sg) s)
    (hjoin : s.caller = CallerPc.close_join_dq ∨ s.caller = CallerPc.close_join_wr)
    (hstep : step n s Action.encoder_close = Outcome.ok s1)
    (hret : s1.caller = CallerPc.idle) :
    s1.e.free_buf_in = List.range n ∧ s1.e.free_buf_in.length = n ∧
    (∀ i, i < n → s1.e.free_buf_in.count i = 1) ∧
    (∀ i ∈ s1.e.free_buf_in, i < n) ∧
    in_flight s1 = [] ∧ s1.e.extras = [] := by
  obtain ⟨hpool, hext⟩ := session_inv_reachable n _ s
    (session_inv_construct n m w h h265 write o c sg) hr
  obtain ⟨hfree, hinfl, _, _⟩ := pool_ok_joined n _ _ _ hpool hjoin
  obtain ⟨h1, h2, h3, h4, _, _⟩ := encoder_close_returns n s s1 hjoin hstep hret
  have hf : s1.e.free_buf_in = List.range n := by rw [h1, hfree]
  refine ⟨hf, by rw [hf, List.length_range], ?_, ?_, ?_, ?_⟩
  · intro i hi
    rw [hf]
    exact List.count_eq_one_of_mem (List.nodup_range n) (List.mem_range.2 hi)
  · intro i hi
    rw [hf] at hi
    exact List.mem_range.1 hi
  · unfold in_flight
    rw [h2]
    exact hinfl
  · rw [h3]
    rcases hjoin with hj | hj
    · exact h4 hj
    · exact hext hj

theorem reachable_of_run (n : Nat) (s0 : System) (tr : List Action) :
    ∀ (s s2 : System), Reachable n s0 s → releases_held_along n s tr = true →
      run n s tr = Outcome.ok s2 → Reachable n s0 s2 := by
  induction tr with
  | nil => intro s s2 hr _ h; rw [← Outcome.ok.inj h]; exact hr
  | cons a tr ih =>
    intro s s2 hr hdev h
    obtain ⟨s1, h1, h2⟩ := run_cons_inv n s s2 a tr h
    simp only [releases_held_along, h1, Bool.and_eq_true] at hdev
    exact ih s1 s2 (Reachable.next s s1 a hr hdev.1 h1) hdev.2 h2

theorem reachable_closing : Reachable 7 fresh closing :=
  reachable_of_run 7 fresh (Action.encoder_open :: session.dropLast) fresh closing
    Reachable.start (by decide) (by decide)

theorem C6_pool_restored_after_close_witness :
    Reachable 7 fresh closing ∧ closing.caller = CallerPc.close_join_wr ∧
    ∃ s1, step 7 closing Action.encoder_close = Outcome.ok s1 ∧ s1.caller = CallerPc.idle ∧
      s1.e.free_buf_in = List.range 7 ∧ s1.e.free_buf_in.length = 7 ∧
      (∀ i, i < 7 → s1.e.free_buf_in.count i = 1) ∧
      (∀ i ∈ s1.e.free_buf_in, i < 7) ∧
      in_flight s1 = [] ∧ s1.e.extras = [] :=
  ⟨reachable_closing, rfl, _, rfl, rfl,
   C6_pool_restored_after_close 7 6 1928 1208 true true false 0 (-1) closing _
     reachable_closing (Or.inr rfl) rfl rfl⟩

end V4L
